import Mathlib

/-!
Verification of the shared 2D-grid utility (`Map2d` in `src/util/map2d.rs`)
and the rotation-based sliding code of `src/day_14.rs` from the
advent-of-code-2023 repository.

Modelling conventions:
* Rust `i64` is modelled as `Int` and `usize` as `Nat`; the arithmetic of the
  grid code never overflows for grids that fit in memory, so machine-width
  wrapping is modelled only where it is the essential behaviour (the
  `(size.x * size.y) as usize` cast inside `new_default`, whose wrap decides
  what happens on negative dimensions).
* Fallible operations return `Option`: a Rust `panic!` / failed `unwrap()` /
  out-of-range slice index is modelled as `none`, and an `Option`-returning
  Rust function keeps its `Option`.  Doc comments on each definition say which
  of the two a `none` stands for.
* In-place mutation through `&mut` borrows is modelled by explicit state
  passing: `get_mut(pos)` followed by a write through the returned reference
  becomes `Map2d.set`, returning the updated grid.
-/

/-- The 2-component integer vector of `src/util/mod.rs` (`Vec2`), with `i64`
components modelled as `Int`. -/
structure Vec2 where
  x : Int
  y : Int
deriving DecidableEq, Repr

/-- `Vec2::new` from the source. -/
def Vec2.new (x y : Int) : Vec2 := ⟨x, y⟩

/-- The four cardinal directions of `src/util/mod.rs` (`Dir`). -/
inductive Dir where
  | Up
  | Down
  | Left
  | Right
deriving DecidableEq, Repr

/-- The 2D grid of `src/util/map2d.rs`: a size and a flat row-major buffer.
Both fields are public in the source, so arbitrary values of this structure
are constructible; theorems that need the length invariant state it as a
hypothesis. -/
structure Map2d (T : Type) where
  size : Vec2
  data : List T
deriving DecidableEq, Repr

/-- The in-bounds predicate used by `index_of`'s guard:
`0 <= p.x < size.x && 0 <= p.y < size.y`. -/
def Vec2.inBounds (size p : Vec2) : Prop :=
  0 ≤ p.x ∧ p.x < size.x ∧ 0 ≤ p.y ∧ p.y < size.y

instance (size p : Vec2) : Decidable (Vec2.inBounds size p) := by
  unfold Vec2.inBounds; infer_instance

/-- `Map2d::index_of`: `None` when any bound fails, otherwise
`Some((pos.x + pos.y * self.size.x) as usize)`.  In the `Some` branch the
value is non-negative, so the `as usize` cast is value-preserving and is
modelled by `Int.toNat`. -/
def Map2d.index_of (m : Map2d T) (pos : Vec2) : Option Nat :=
  if pos.x < 0 ∨ pos.y < 0 ∨ pos.x ≥ m.size.x ∨ pos.y ≥ m.size.y then
    none
  else
    some (pos.x + pos.y * m.size.x).toNat

/-- `Map2d::pos_of`: `let x = index as i64 % self.size.x; let y = index as i64
/ self.size.x`.  Rust's `%` and `/` on `i64` are truncating `tmod`/`tdiv`;
they panic exactly when the divisor `size.x` is zero, which is modelled as
`none`. -/
def Map2d.pos_of (m : Map2d T) (index : Nat) : Option Vec2 :=
  if m.size.x = 0 then
    none
  else
    some ⟨Int.tmod index m.size.x, Int.tdiv index m.size.x⟩

/-- `Map2d::get`: `self.index_of(pos).map(|i| self.data[i])`.  A `none` result
arises either from `index_of` returning `None` (the Rust function returns
`None`) or from the buffer index `self.data[i]` being out of range (the Rust
function panics); under the length invariant the second case never happens
(theorem `index_of_lt_length`). -/
def Map2d.get (m : Map2d T) (pos : Vec2) : Option T :=
  match m.index_of pos with
  | none => none
  | some i => m.data.get? i

/-- `Map2d::get_mut` followed by a write through the returned reference
(`*map.get_mut(pos).unwrap() = v`, the only way the repository uses it):
`none` models `get_mut` returning `None` (no write happens), or the panic of
the buffer index `self.data[i]` when `i` is out of range (impossible under
the length invariant). -/
def Map2d.set (m : Map2d T) (pos : Vec2) (v : T) : Option (Map2d T) :=
  match m.index_of pos with
  | none => none
  | some i =>
    if i < m.data.length then some ⟨m.size, m.data.set i v⟩ else none

/-- `Map2d::get_row`: `self.index_of(..).unwrap()` twice, then the slice
`&self.data[start..=end]`.  `none` models a panic: a failed `unwrap` (row `y`
out of range, or `size.x ≤ 0`) or the slice end falling outside the buffer. -/
def Map2d.get_row (m : Map2d T) (y : Int) : Option (List T) :=
  match m.index_of ⟨0, y⟩, m.index_of ⟨m.size.x - 1, y⟩ with
  | some start, some stop =>
    if stop < m.data.length then
      some ((m.data.drop start).take (stop + 1 - start))
    else
      none
  | _, _ => none

/-- Splits a character list at every newline character; the final segment is
kept even when empty (`"a\n".split('\n') = ["a", ""]`). -/
def splitNl : List Char → List (List Char)
  | [] => [[]]
  | c :: rest =>
    if c = '\n' then
      [] :: splitNl rest
    else
      match splitNl rest with
      | [] => [[c]]
      | l :: ls => (c :: l) :: ls

/-- Rust's `str::lines()` for newline-delimited text: split at `'\n'` and drop
the trailing empty segment produced by a final newline (so `""` has no lines
and `"AB\n"` has exactly one). -/
def rustLines (s : List Char) : List (List Char) :=
  let parts := splitNl s
  if parts.getLast? = some [] then parts.dropLast else parts

/-- `Map2d::parse_grid`: width is the length of the first line, height the
line count, and the data every non-newline character of `s` mapped through
`f`, in text order.  `none` models the panic of
`s.lines().next().unwrap()` when `s` has no lines. -/
def Map2d.parse_grid (s : List Char) (f : Char → T) : Option (Map2d T) :=
  match rustLines s with
  | [] => none
  | l0 :: rest =>
    some ⟨⟨(l0.length : Int), ((l0 :: rest).length : Int)⟩,
          (s.filter (fun c => c ≠ '\n')).map f⟩

/-- `Map2d::new_default`: `vec![default; (size.x * size.y) as usize]`.  The
`as usize` cast wraps the (possibly negative) product into `[0, 2^64)`; the
`vec!` allocation then panics (capacity overflow) when the element count
exceeds `isize::MAX = 2^63 - 1`, which is modelled as `none`.  `i64`
multiplication overflow also wraps modulo `2^64` here, matching release-mode
Rust. -/
def Map2d.new_default (size : Vec2) (default : T) : Option (Map2d T) :=
  let u : Nat := ((size.x * size.y).emod (2 ^ 64)).toNat
  if u < 2 ^ 63 then
    some ⟨size, List.replicate u default⟩
  else
    none

/-- `Map2d::find`: position of the first cell satisfying the predicate, in
row-major buffer order, converted through `pos_of`.  `none` when no cell
matches; an inner `pos_of` panic (`size.x = 0` with a nonempty buffer) is
also `none`. -/
def Map2d.find (m : Map2d T) (predicate : T → Bool) : Option Vec2 :=
  match m.data.findIdx? predicate with
  | none => none
  | some i => m.pos_of i

/-- The cell type of `src/day_14.rs`. -/
inductive Cell where
  | Empty
  | Fixed
  | Mobile
deriving DecidableEq, Repr

/-- `Cell::from_char` of `src/day_14.rs`; `none` models the
`panic!("Invalid cell type")` arm. -/
def Cell.from_char (c : Char) : Option Cell :=
  if c = '.' then some Cell.Empty
  else if c = '#' then some Cell.Fixed
  else if c = 'O' then some Cell.Mobile
  else none

/-- Modelled from the spec: the `RotatedMap2d` view used by `src/day_14.rs`
is declared in the repository's `util` module but its definition is not
among the provided sources (only `day_14.rs`, `day_16.rs` and `day_17.rs`
use it).  Per the spec (§3, §4.2) it is a re-indexing of an existing grid
holding a mutable borrow of the grid (field `map`) and a chosen logical-"up"
direction (field `up`); the borrow is modelled by explicit state passing. -/
structure RotatedMap2d (T : Type) where
  map : Map2d T
  up : Dir
deriving DecidableEq, Repr

/-- Modelled from the spec: the view's logical size — "every physical size is
reported rotated/reflected to match the logical orientation (so logical
width/height swap when the chosen up is Left or Right)". -/
def RotatedMap2d.size (r : RotatedMap2d T) : Vec2 :=
  match r.up with
  | Dir.Up | Dir.Down => r.map.size
  | Dir.Left | Dir.Right => ⟨r.map.size.y, r.map.size.x⟩

/-- Modelled from the spec: the logical-to-physical coordinate translation of
the view — the identity for `up = Up`, the 180° flip for `up = Down`, and the
two transposition-style quarter-turn maps for `up = Left` / `up = Right`,
each a bijection between the logical and the physical coordinate box.  The
quarter-turn orientations are fixed by the one caller whose behaviour is
known: `slide` in `src/day_14.rs` builds the view with `up = Dir::Right` to
realise a leftward slide and `up = Dir::Left` to realise a rightward slide,
so the `Right` translation sends decreasing logical `y` toward physical
left, and the `Left` translation toward physical right. -/
def RotatedMap2d.to_physical (r : RotatedMap2d T) (pos : Vec2) : Vec2 :=
  match r.up with
  | Dir.Up => pos
  | Dir.Down => ⟨r.map.size.x - 1 - pos.x, r.map.size.y - 1 - pos.y⟩
  | Dir.Right => ⟨pos.y, pos.x⟩
  | Dir.Left => ⟨r.map.size.x - 1 - pos.y, r.map.size.y - 1 - pos.x⟩

/-- Modelled from the spec: the inverse translation, physical back to
logical. -/
def RotatedMap2d.to_logical (r : RotatedMap2d T) (pos : Vec2) : Vec2 :=
  match r.up with
  | Dir.Up => pos
  | Dir.Down => ⟨r.map.size.x - 1 - pos.x, r.map.size.y - 1 - pos.y⟩
  | Dir.Right => ⟨pos.y, pos.x⟩
  | Dir.Left => ⟨r.map.size.y - 1 - pos.y, r.map.size.x - 1 - pos.x⟩

/-- Modelled from the spec: the view "exposes the same read/write
coordinate-indexed interface as Grid", translating every logical coordinate
before touching the backing storage. -/
def RotatedMap2d.get (r : RotatedMap2d T) (pos : Vec2) : Option T :=
  r.map.get (r.to_physical pos)

/-- Modelled from the spec: writing one logical cell through the view
(`*view.get_mut(pos).unwrap() = v`); mutates the same backing storage the
owner sees, modelled by returning the view with the updated grid. -/
def RotatedMap2d.set (r : RotatedMap2d T) (pos : Vec2) (v : T) :
    Option (RotatedMap2d T) :=
  match r.map.set (r.to_physical pos) v with
  | none => none
  | some m => some ⟨m, r.up⟩

/-- The list `[0, 1, ..., n-1]` of `Int`s, the iteration space of the Rust
range `0..n` for an `i64` bound `n` (empty when `n ≤ 0`). -/
def intRange (n : Int) : List Int :=
  (List.range n.toNat).map (fun (k : Nat) => (k : Int))

/-- The list `[a, a+1, ..., b-1]` of `Int`s, the iteration space of the Rust
range `a..b` (empty when `b ≤ a`). -/
def intRangeFromTo (a b : Int) : List Int :=
  (List.range (b - a).toNat).map (fun (k : Nat) => a + (k : Int))

/-- The write-back loop of `slide_up_single`
(`for y2 in stop..(stop + mobile_count) { *map.get_mut(pos2).unwrap() =
Cell::Mobile }`); `none` models a failed `unwrap`. -/
def writeRun (m : RotatedMap2d Cell) (x stop cnt : Int) :
    Option (RotatedMap2d Cell) :=
  (intRangeFromTo stop (stop + cnt)).foldlM
    (fun acc y2 => acc.set ⟨x, y2⟩ Cell.Mobile) m

/-- One iteration of the `for y in 0..map.size().y` loop body of
`slide_up_single` in `src/day_14.rs`, carrying the state
`(map, stop, mobile_count)`; `none` models a failed `unwrap`. -/
def slideStep (x : Int) :
    RotatedMap2d Cell × Int × Int → Int →
      Option (RotatedMap2d Cell × Int × Int)
  | (m, stop, cnt), y => do
    let c ← m.get ⟨x, y⟩
    match c with
    | Cell.Empty => pure (m, stop, cnt)
    | Cell.Mobile => do
      let m2 ← m.set ⟨x, y⟩ Cell.Empty
      pure (m2, stop, cnt + 1)
    | Cell.Fixed => do
      let m2 ← writeRun m x stop cnt
      pure (m2, y + 1, 0)

/-- `slide_up_single` of `src/day_14.rs`: scan column `x` downward, erasing
mobile cells and re-depositing them just below the previous fixed cell (or
the top), with a final write-back run after the loop. -/
def slide_up_single (m : RotatedMap2d Cell) (x : Int) :
    Option (RotatedMap2d Cell) := do
  let st ← (intRange m.size.y).foldlM (slideStep x) (m, (0 : Int), (0 : Int))
  writeRun st.1 x st.2.1 st.2.2

/-- `slide_up` of `src/day_14.rs`: slide each column individually. -/
def slide_up (m : RotatedMap2d Cell) : Option (RotatedMap2d Cell) :=
  (intRange m.size.x).foldlM slide_up_single m

/-- `slide` of `src/day_14.rs`: wrap the grid in the rotated view whose
logical up realises direction `dir` (note `Left ↦ up = Right` and
`Right ↦ up = Left`, as in the source), then slide up. -/
def slide (m : Map2d Cell) (dir : Dir) : Option (Map2d Cell) :=
  let up :=
    match dir with
    | Dir.Up => Dir.Up
    | Dir.Down => Dir.Down
    | Dir.Left => Dir.Right
    | Dir.Right => Dir.Left
  match slide_up ⟨m, up⟩ with
  | none => none
  | some r => some r.map

/-- Reference definition, following the spec's words: a maximal run of
non-fixed cells with gravity toward the head has all its mobile cells packed
at the head, the rest empty. -/
def compactSeg (seg : List Cell) : List Cell :=
  List.replicate (seg.count Cell.Mobile) Cell.Mobile ++
    List.replicate (seg.length - seg.count Cell.Mobile) Cell.Empty

/-- Reference definition, following the spec's words: "slide all movable
cells toward the top" of a single line — every fixed cell stays put, and
within each run between fixed cells the mobile cells pack toward the head. -/
def slideLineSpec (l : List Cell) : List Cell :=
  match h : l.dropWhile (fun c => c ≠ Cell.Fixed) with
  | [] => compactSeg l
  | _ :: rest =>
    compactSeg (l.takeWhile (fun c => c ≠ Cell.Fixed)) ++
      Cell.Fixed :: slideLineSpec rest
termination_by l.length
decreasing_by
  have h1 : (l.dropWhile (fun c => c ≠ Cell.Fixed)).length ≤ l.length :=
    (List.dropWhile_suffix _).length_le
  rw [h] at h1
  simp only [List.length_cons] at h1
  omega

/-- Column `x` of a grid, read top to bottom (out-of-bounds cells read as
`Empty`; the reference transformations only use in-bounds cells). -/
def specCol (g : Map2d Cell) (x : Int) : List Cell :=
  (intRange g.size.y).map (fun y => (g.get ⟨x, y⟩).getD Cell.Empty)

/-- Row `y` of a grid, read left to right. -/
def specRow (g : Map2d Cell) (y : Int) : List Cell :=
  (intRange g.size.x).map (fun x => (g.get ⟨x, y⟩).getD Cell.Empty)

/-- A grid of the given size whose cells are computed from their coordinate
(row-major data layout). -/
def Map2d.ofFn (size : Vec2) (f : Vec2 → T) : Map2d T :=
  ⟨size, (List.range (size.x * size.y).toNat).map
    (fun (i : Nat) => f ⟨(i : Int).emod size.x, (i : Int).ediv size.x⟩)⟩

/-- Reference definition, following the spec's words: slide every mobile cell
toward the top; each column is independently packed upward. -/
def slideUpSpec (g : Map2d Cell) : Map2d Cell :=
  Map2d.ofFn g.size
    (fun p => ((slideLineSpec (specCol g p.x)).get? p.y.toNat).getD Cell.Empty)

/-- Reference definition, following the spec's words: slide every mobile cell
toward the bottom; each column is packed toward its bottom end. -/
def slideDownSpec (g : Map2d Cell) : Map2d Cell :=
  Map2d.ofFn g.size
    (fun p =>
      (((slideLineSpec (specCol g p.x).reverse).reverse).get? p.y.toNat).getD
        Cell.Empty)

/-- Reference definition, following the spec's words: slide every mobile cell
toward the left edge; each row is packed toward its left end. -/
def slideLeftSpec (g : Map2d Cell) : Map2d Cell :=
  Map2d.ofFn g.size
    (fun p => ((slideLineSpec (specRow g p.y)).get? p.x.toNat).getD Cell.Empty)

/-- Reference definition, following the spec's words: slide every mobile cell
toward the right edge; each row is packed toward its right end. -/
def slideRightSpec (g : Map2d Cell) : Map2d Cell :=
  Map2d.ofFn g.size
    (fun p =>
      (((slideLineSpec (specRow g p.y).reverse).reverse).get? p.x.toNat).getD
        Cell.Empty)

/-- Reference definition: the direction-specific slide named by the spec for
each gravitational direction. -/
def slideSpec (g : Map2d Cell) : Dir → Map2d Cell
  | Dir.Up => slideUpSpec g
  | Dir.Down => slideDownSpec g
  | Dir.Left => slideLeftSpec g
  | Dir.Right => slideRightSpec g

/-- 1D mirror of the write-back loop of `slide_up_single`, acting on a
single column held as a list. -/
def listWriteRun (out : List Cell) (stop cnt : Int) : List Cell :=
  (intRangeFromTo stop (stop + cnt)).foldl
    (fun acc y2 => acc.set y2.toNat Cell.Mobile) out

/-- 1D mirror of `slideStep`, acting on a single column held as a list. -/
def listSlideStep : List Cell × Int × Int → Int →
    Option (List Cell × Int × Int)
  | (out, stop, cnt), y => do
    let c ← out.get? y.toNat
    match c with
    | Cell.Empty => pure (out, stop, cnt)
    | Cell.Mobile => pure (out.set y.toNat Cell.Empty, stop, cnt + 1)
    | Cell.Fixed => pure (listWriteRun out stop cnt, y + 1, 0)

/-- 1D mirror of `slide_up_single`, acting on a single column held as a
list. -/
def listSlide (c : List Cell) : Option (List Cell) := do
  let st ← (intRange (c.length : Int)).foldlM listSlideStep (c, (0 : Int), (0 : Int))
  pure (listWriteRun st.1 st.2.1 st.2.2)

/-- The logical column `x` of a rotated view, read in logical order
(out-of-bounds cells read as `Empty`). -/
def viewCol (v : RotatedMap2d Cell) (x : Int) : List Cell :=
  (intRange v.size.y).map (fun y => (v.get ⟨x, y⟩).getD Cell.Empty)

/-- The length invariant of `Map2d`: the flat buffer holds exactly
`size.x * size.y` cells. -/
def Map2d.SizeInv (m : Map2d T) : Prop :=
  (m.data.length : Int) = m.size.x * m.size.y

instance (m : Map2d T) : Decidable m.SizeInv := by
  unfold Map2d.SizeInv; infer_instance

/-- Proof-internal simulation relation for the slide equivalence: the 2D
state `m` reached while sliding column `x` of the view `v0` corresponds to
the 1D column state `out`, with all other cells untouched. -/
def SimR (v0 : RotatedMap2d Cell) (x : Int) (m : RotatedMap2d Cell)
    (out : List Cell) : Prop :=
  m.up = v0.up ∧ m.map.size = v0.map.size ∧ m.map.SizeInv ∧
  out = viewCol m x ∧ (∀ q : Vec2, q.x ≠ x → m.get q = v0.get q)

/-! ### Basic facts about the linear index map -/

theorem Map2d.index_of_of_inBounds {T : Type} (m : Map2d T) {p : Vec2}
    (h : Vec2.inBounds m.size p) :
    m.index_of p = some (p.x + p.y * m.size.x).toNat := by
  obtain ⟨h1, h2, h3, h4⟩ := h
  unfold Map2d.index_of
  rw [if_neg]
  push_neg
  exact ⟨by omega, by omega, by omega, by omega⟩

theorem Map2d.index_of_eq_none_iff {T : Type} (m : Map2d T) (p : Vec2) :
    m.index_of p = none ↔ ¬ Vec2.inBounds m.size p := by
  unfold Map2d.index_of Vec2.inBounds
  split
  · next hc => simp only [true_iff]; omega
  · next hc => push_neg at hc; simp only [reduceCtorEq, false_iff]; push_neg; omega

theorem Map2d.index_of_eq_some_iff {T : Type} (m : Map2d T) (p : Vec2) (i : Nat) :
    m.index_of p = some i ↔
      Vec2.inBounds m.size p ∧ i = (p.x + p.y * m.size.x).toNat := by
  constructor
  · intro h
    have hb : Vec2.inBounds m.size p := by
      by_contra hc
      rw [← Map2d.index_of_eq_none_iff m p] at hc
      rw [h] at hc
      exact Option.noConfusion hc
    have h2 := m.index_of_of_inBounds hb
    rw [h] at h2
    exact ⟨hb, Option.some_injective _ h2⟩
  · rintro ⟨hb, rfl⟩
    exact m.index_of_of_inBounds hb

theorem linIndex_emod {w x y : Int} (hw : 0 < w) (hx : 0 ≤ x) (hxw : x < w) :
    (x + y * w) % w = x := by
  rw [Int.add_mul_emod_self]
  exact Int.emod_eq_of_lt hx hxw

theorem linIndex_ediv {w x y : Int} (hw : 0 < w) (hx : 0 ≤ x) (hxw : x < w) :
    (x + y * w) / w = y := by
  rw [Int.add_mul_ediv_right _ _ (by omega : w ≠ 0)]
  rw [Int.ediv_eq_zero_of_lt hx hxw]
  omega

theorem linIndex_lt {w h x y : Int} (hx : 0 ≤ x) (hxw : x < w) (hy : 0 ≤ y)
    (hyh : y < h) : x + y * w < w * h := by
  nlinarith

theorem Map2d.index_of_lt_length {T : Type} {m : Map2d T} {p : Vec2} {i : Nat}
    (hinv : m.SizeInv) (h : m.index_of p = some i) : i < m.data.length := by
  obtain ⟨hb, rfl⟩ := (m.index_of_eq_some_iff p i).1 h
  obtain ⟨h1, h2, h3, h4⟩ := hb
  have hlt : p.x + p.y * m.size.x < m.size.x * m.size.y := linIndex_lt h1 h2 h3 h4
  have hnn : 0 ≤ p.y * m.size.x := mul_nonneg h3 (by omega)
  unfold Map2d.SizeInv at hinv
  omega

theorem Map2d.index_of_inj {T : Type} (m : Map2d T) {p q : Vec2}
    (hp : Vec2.inBounds m.size p) (hq : Vec2.inBounds m.size q)
    (h : m.index_of p = m.index_of q) : p = q := by
  rw [m.index_of_of_inBounds hp, m.index_of_of_inBounds hq] at h
  obtain ⟨p1, p2, p3, p4⟩ := hp
  obtain ⟨q1, q2, q3, q4⟩ := hq
  have h0 := Option.some_injective _ h
  have h' : p.x + p.y * m.size.x = q.x + q.y * m.size.x := by
    have hnp : 0 ≤ p.y * m.size.x := mul_nonneg p3 (by omega)
    have hnq : 0 ≤ q.y * m.size.x := mul_nonneg q3 (by omega)
    omega
  have hw : 0 < m.size.x := by omega
  have ex : p.x = q.x := by
    have := linIndex_emod hw p1 p2 (y := p.y)
    rw [h', linIndex_emod hw q1 q2] at this
    omega
  have ey : p.y = q.y := by
    have := linIndex_ediv hw p1 p2 (y := p.y)
    rw [h', linIndex_ediv hw q1 q2] at this
    omega
  cases p; cases q
  simp_all

theorem Map2d.pos_of_index {T : Type} (m : Map2d T) {p : Vec2}
    (hp : Vec2.inBounds m.size p) :
    m.pos_of (p.x + p.y * m.size.x).toNat = some p := by
  obtain ⟨h1, h2, h3, h4⟩ := hp
  have hw : 0 < m.size.x := by omega
  have hnn : 0 ≤ p.x + p.y * m.size.x := by
    have := mul_nonneg h3 (le_of_lt hw)
    omega
  unfold Map2d.pos_of
  rw [if_neg (by omega)]
  have hcast : ((p.x + p.y * m.size.x).toNat : Int) = p.x + p.y * m.size.x := by
    omega
  rw [hcast]
  have hm : (p.x + p.y * m.size.x).tmod m.size.x = p.x := by
    rw [Int.tmod_eq_emod hnn (by omega)]
    exact linIndex_emod hw h1 h2
  have hd : (p.x + p.y * m.size.x).tdiv m.size.x = p.y := by
    rw [Int.tdiv_eq_ediv hnn (by omega)]
    exact linIndex_ediv hw h1 h2
  rw [hm, hd]

/-! ### Facts about `get` and `set` -/

theorem Map2d.get_eq_none_of_not_inBounds {T : Type} (m : Map2d T) {p : Vec2}
    (h : ¬ Vec2.inBounds m.size p) : m.get p = none := by
  unfold Map2d.get
  rw [(m.index_of_eq_none_iff p).2 h]

theorem Map2d.set_eq_none_of_not_inBounds {T : Type} (m : Map2d T) {p : Vec2}
    (v : T) (h : ¬ Vec2.inBounds m.size p) : m.set p v = none := by
  unfold Map2d.set
  rw [(m.index_of_eq_none_iff p).2 h]

theorem Map2d.get_of_inBounds {T : Type} (m : Map2d T) {p : Vec2}
    (hinv : m.SizeInv) (h : Vec2.inBounds m.size p) :
    ∃ c, m.get p = some c := by
  have hi := m.index_of_of_inBounds h
  have hlt := Map2d.index_of_lt_length hinv hi
  unfold Map2d.get
  rw [hi]
  exact ⟨_, List.get?_eq_get hlt⟩

theorem Map2d.get_isSome_iff {T : Type} (m : Map2d T) (p : Vec2)
    (hinv : m.SizeInv) : (m.get p).isSome ↔ Vec2.inBounds m.size p := by
  constructor
  · intro h
    by_contra hc
    rw [m.get_eq_none_of_not_inBounds hc] at h
    simp at h
  · intro h
    obtain ⟨c, hc⟩ := m.get_of_inBounds hinv h
    rw [hc]
    rfl

theorem Map2d.set_spec {T : Type} (m : Map2d T) {p : Vec2} (v : T)
    (hinv : m.SizeInv) (h : Vec2.inBounds m.size p) :
    ∃ m', m.set p v = some m' ∧ m'.size = m.size ∧ m'.SizeInv ∧
      m'.get p = some v ∧ ∀ q, q ≠ p → m'.get q = m.get q := by
  have hi := m.index_of_of_inBounds h
  have hlt := Map2d.index_of_lt_length hinv hi
  refine ⟨⟨m.size, m.data.set (p.x + p.y * m.size.x).toNat v⟩, ?_, rfl, ?_, ?_, ?_⟩
  · unfold Map2d.set
    rw [hi]
    dsimp only
    rw [if_pos hlt]
  · unfold Map2d.SizeInv at hinv ⊢
    simpa using hinv
  · show Map2d.get _ p = some v
    unfold Map2d.get
    have hi' : Map2d.index_of ⟨m.size, m.data.set (p.x + p.y * m.size.x).toNat v⟩ p
        = some (p.x + p.y * m.size.x).toNat := by
      exact Map2d.index_of_of_inBounds _ h
    rw [hi']
    dsimp only
    exact List.get?_set_eq_of_lt v (by simpa using hlt)
  · intro q hq
    show Map2d.get _ q = m.get q
    unfold Map2d.get
    have hiq : Map2d.index_of ⟨m.size, m.data.set (p.x + p.y * m.size.x).toNat v⟩ q
        = m.index_of q := rfl
    rw [hiq]
    cases hcase : m.index_of q with
    | none => rfl
    | some j =>
      have hne : (p.x + p.y * m.size.x).toNat ≠ j := by
        intro he
        rcases Decidable.em (Vec2.inBounds m.size q) with hqb | hqb
        · exact hq (Map2d.index_of_inj m hqb h (by rw [hcase, hi, he]))
        · rw [(m.index_of_eq_none_iff q).2 hqb] at hcase
          exact Option.noConfusion hcase
      dsimp only
      exact List.get?_set_ne v m.data hne

/-! ### Claim C1 -/

/-- C1: for every grid with non-negative size `(w, h)` and every integer
coordinate `p`, `index_of p` returns `some` of the linear index
`p.x + p.y * w` exactly when `0 ≤ p.x < w` and `0 ≤ p.y < h`, and `none`
otherwise. -/
theorem c1_index_of_bounds (T : Type) (m : Map2d T) (p : Vec2)
    (hw : 0 ≤ m.size.x) (hh : 0 ≤ m.size.y) :
    (m.index_of p = some (p.x + p.y * m.size.x).toNat ↔
      Vec2.inBounds m.size p) ∧
    (m.index_of p = none ↔ ¬ Vec2.inBounds m.size p) := by
  constructor
  · constructor
    · intro h
      exact ((m.index_of_eq_some_iff p _).1 h).1
    · exact m.index_of_of_inBounds
  · exact m.index_of_eq_none_iff p

/-- Witness for C1 at a 3×2 grid: the in-bounds coordinate `(1, 1)` and the
two characterisations evaluated there. -/
theorem c1_index_of_bounds_witness :
    ((⟨⟨3, 2⟩, []⟩ : Map2d Nat).index_of ⟨1, 1⟩ =
        some (((1 : Int) + 1 * 3).toNat) ↔
      Vec2.inBounds ⟨3, 2⟩ ⟨1, 1⟩) ∧
    ((⟨⟨3, 2⟩, []⟩ : Map2d Nat).index_of ⟨1, 1⟩ = none ↔
      ¬ Vec2.inBounds ⟨3, 2⟩ ⟨1, 1⟩) :=
  c1_index_of_bounds Nat ⟨⟨3, 2⟩, []⟩ ⟨1, 1⟩ (by decide) (by decide)

/-! ### Claim C2 -/

/-- C2: on every in-bounds coordinate `index_of` succeeds and `pos_of` maps
the produced linear index back to exactly the original coordinate. -/
theorem c2_pos_of_round_trip (T : Type) (m : Map2d T) (p : Vec2)
    (h : Vec2.inBounds m.size p) :
    ∃ i, m.index_of p = some i ∧ m.pos_of i = some p :=
  ⟨(p.x + p.y * m.size.x).toNat, m.index_of_of_inBounds h, m.pos_of_index h⟩

/-- Witness for C2 at the coordinate `(2, 1)` of a 3×2 grid. -/
theorem c2_pos_of_round_trip_witness :
    ∃ i, (⟨⟨3, 2⟩, []⟩ : Map2d Nat).index_of ⟨2, 1⟩ = some i ∧
      (⟨⟨3, 2⟩, []⟩ : Map2d Nat).pos_of i = some ⟨2, 1⟩ :=
  c2_pos_of_round_trip Nat ⟨⟨3, 2⟩, []⟩ ⟨2, 1⟩ (by decide)

/-! ### Claim C9 -/

/-- C9: under the length invariant every index produced by `index_of` is in
range for the buffer, so `get` and the `get_mut` write never reach an
out-of-range buffer access (never panic); both return `some` exactly on
in-bounds coordinates. -/
theorem c9_get_set_total (T : Type) (m : Map2d T) (p : Vec2) (v : T)
    (hinv : m.SizeInv) :
    (∀ i, m.index_of p = some i → i < m.data.length) ∧
    ((m.get p).isSome ↔ Vec2.inBounds m.size p) ∧
    ((m.set p v).isSome ↔ Vec2.inBounds m.size p) := by
  refine ⟨fun i hi => Map2d.index_of_lt_length hinv hi,
    m.get_isSome_iff p hinv, ?_, ?_⟩
  · intro h
    by_contra hc
    rw [m.set_eq_none_of_not_inBounds v hc] at h
    simp at h
  · intro h
    obtain ⟨m', hm', _⟩ := m.set_spec v hinv h
    rw [hm']
    rfl

/-- Witness for C9 at a 2×2 grid of naturals with the invariant holding. -/
theorem c9_get_set_total_witness :
    (∀ i, (⟨⟨2, 2⟩, [10, 20, 30, 40]⟩ : Map2d Nat).index_of ⟨1, 0⟩ = some i →
        i < (⟨⟨2, 2⟩, [10, 20, 30, 40]⟩ : Map2d Nat).data.length) ∧
    (((⟨⟨2, 2⟩, [10, 20, 30, 40]⟩ : Map2d Nat).get ⟨1, 0⟩).isSome ↔
      Vec2.inBounds ⟨2, 2⟩ ⟨1, 0⟩) ∧
    (((⟨⟨2, 2⟩, [10, 20, 30, 40]⟩ : Map2d Nat).set ⟨1, 0⟩ 7).isSome ↔
      Vec2.inBounds ⟨2, 2⟩ ⟨1, 0⟩) :=
  c9_get_set_total Nat ⟨⟨2, 2⟩, [10, 20, 30, 40]⟩ ⟨1, 0⟩ 7 (by decide)

/-! ### Claim C10 -/

/-- C10: `pos_of` is total whenever `size.x > 0` and then returns exactly
`(i mod size.x, i div size.x)` for every index `i`, in range or not; it is
undefined (a division-by-zero panic) exactly when `size.x = 0`. -/
theorem c10_pos_of_total (T : Type) (m : Map2d T) (i : Nat) :
    (0 < m.size.x →
      m.pos_of i = some ⟨(i : Int) % m.size.x, (i : Int) / m.size.x⟩) ∧
    (m.pos_of i = none ↔ m.size.x = 0) := by
  constructor
  · intro hw
    unfold Map2d.pos_of
    rw [if_neg (by omega)]
    have h1 : (0 : Int) ≤ (i : Int) := Int.natCast_nonneg i
    rw [Int.tmod_eq_emod h1 (by omega), Int.tdiv_eq_ediv h1 (by omega)]
  · unfold Map2d.pos_of
    split
    · next h => simp [h]
    · next h => simp [h]

/-- Witness for C10 at index 11 of a grid of width 3. -/
theorem c10_pos_of_total_witness :
    (⟨⟨3, 5⟩, []⟩ : Map2d Nat).pos_of 11 =
      some ⟨(11 : Int) % 3, (11 : Int) / 3⟩ :=
  (c10_pos_of_total Nat ⟨⟨3, 5⟩, []⟩ 11).1 (by decide)

/-! ### Claim C3 -/

/-- Counterexample to C3: on a 2×2 grid the row accessor `get_row` called
with the out-of-range row `5` does not produce an absent/optional result —
its internal `index_of(..).unwrap()` fails (second conjunct), i.e. the Rust
function panics, which the embedding records as `none` standing for a
process fault rather than for a returned `None` (the Rust return type
`&[Tile]` has no absent value). -/
theorem c3_get_row_counterexample :
    (⟨⟨2, 2⟩, ['a', 'b', 'c', 'd']⟩ : Map2d Char).get_row 5 = none ∧
    (⟨⟨2, 2⟩, ['a', 'b', 'c', 'd']⟩ : Map2d Char).index_of ⟨0, 5⟩ = none := by
  decide

/-- C3 amended: `get` and `get_mut` model every out-of-range coordinate as an
absent result and never fault, but `get_row` instead faults (panics on a
failed `unwrap`) whenever its row argument is out of range. -/
theorem c3_amended_accessors (T : Type) (m : Map2d T) (p : Vec2) (v : T)
    (y : Int) :
    (¬ Vec2.inBounds m.size p → m.get p = none ∧ m.set p v = none) ∧
    (¬ (0 ≤ y ∧ y < m.size.y) → m.get_row y = none) := by
  constructor
  · intro h
    exact ⟨m.get_eq_none_of_not_inBounds h, m.set_eq_none_of_not_inBounds v h⟩
  · intro h
    unfold Map2d.get_row
    have h0 : m.index_of ⟨0, y⟩ = none := by
      rw [m.index_of_eq_none_iff]
      unfold Vec2.inBounds
      dsimp only
      omega
    have h1 : m.index_of ⟨m.size.x - 1, y⟩ = none := by
      rw [m.index_of_eq_none_iff]
      unfold Vec2.inBounds
      dsimp only
      omega
    rw [h0, h1]

/-- Witness for the amended C3 on a 2×2 grid: the off-grid coordinate
`(5, 0)` and the off-grid row `7`. -/
theorem c3_amended_accessors_witness :
    ((⟨⟨2, 2⟩, ['a', 'b', 'c', 'd']⟩ : Map2d Char).get ⟨5, 0⟩ = none ∧
      (⟨⟨2, 2⟩, ['a', 'b', 'c', 'd']⟩ : Map2d Char).set ⟨5, 0⟩ 'z' = none) ∧
    (⟨⟨2, 2⟩, ['a', 'b', 'c', 'd']⟩ : Map2d Char).get_row 7 = none :=
  ⟨(c3_amended_accessors Char ⟨⟨2, 2⟩, ['a', 'b', 'c', 'd']⟩ ⟨5, 0⟩ 'z' 7).1
      (by decide),
    (c3_amended_accessors Char ⟨⟨2, 2⟩, ['a', 'b', 'c', 'd']⟩ ⟨5, 0⟩ 'z' 7).2
      (by decide)⟩

/-! ### Claim C8 -/

/-- Counterexample to C8: `new_default` with the size `(-2, -3)` — both
dimensions negative — does not fail fast: the product `6` is non-negative,
the wrapped cast gives the ordinary count `6`, and a 6-cell grid carrying
the negative size is constructed. -/
theorem c8_new_default_counterexample :
    Map2d.new_default ⟨-2, -3⟩ 'a' =
      some ⟨⟨-2, -3⟩, List.replicate 6 'a'⟩ ∧ ((-2 : Int) < 0) := by
  constructor
  · unfold Map2d.new_default
    norm_num
    rfl
  · decide

/-- C8 amended: with both dimensions non-negative (and the cell count below
`2^63`, the allocation limit) `new_default` produces exactly
`size.x * size.y` copies of the default value; it fails fast exactly when
the product `size.x * size.y` is negative (one negative and one positive
dimension), because the `as usize` wrap turns it into an allocation beyond
`isize::MAX`; a size whose product is non-negative — including two negative
dimensions — constructs a grid without any failure. -/
theorem c8_amended_new_default (T : Type) (size : Vec2) (d : T) :
    (0 ≤ size.x → 0 ≤ size.y → size.x * size.y < 2 ^ 63 →
      Map2d.new_default size d =
        some ⟨size, List.replicate (size.x * size.y).toNat d⟩) ∧
    (-(2 ^ 63) ≤ size.x * size.y → size.x * size.y < 0 →
      Map2d.new_default size d = none) := by
  constructor
  · intro hx hy hlt
    have hnn : 0 ≤ size.x * size.y := mul_nonneg hx hy
    have hm : (size.x * size.y).emod (2 ^ 64) = size.x * size.y :=
      Int.emod_eq_of_lt hnn (by omega)
    unfold Map2d.new_default
    rw [hm, if_pos (by omega)]
  · intro hge hlt
    have hm : (size.x * size.y).emod (2 ^ 64) = size.x * size.y + 2 ^ 64 := by
      have h4 : (size.x * size.y + 2 ^ 64) % (2 ^ 64) = (size.x * size.y) % (2 ^ 64) :=
        Int.add_emod_self
      have h5 : (size.x * size.y + 2 ^ 64) % (2 ^ 64) = size.x * size.y + 2 ^ 64 :=
        Int.emod_eq_of_lt (by omega) (by omega)
      have h6 : (size.x * size.y).emod (2 ^ 64) = (size.x * size.y) % (2 ^ 64) := rfl
      omega
    unfold Map2d.new_default
    rw [hm, if_neg (by omega)]

/-- Witness for the amended C8: the ordinary size `(2, 3)` succeeds with six
default cells, and the size `(-1, 3)` — negative product — fails. -/
theorem c8_amended_new_default_witness :
    Map2d.new_default ⟨2, 3⟩ (5 : Nat) =
      some ⟨⟨2, 3⟩, List.replicate (((2 : Int) * 3).toNat) 5⟩ ∧
    Map2d.new_default ⟨-1, 3⟩ (5 : Nat) = none :=
  ⟨(c8_amended_new_default Nat ⟨2, 3⟩ 5).1 (by decide) (by decide) (by decide),
    (c8_amended_new_default Nat ⟨-1, 3⟩ 5).2 (by decide) (by decide)⟩

/-! ### Line/length bookkeeping for `parse_grid` -/

theorem splitNl_ne_nil (s : List Char) : splitNl s ≠ [] := by
  cases s with
  | nil => simp [splitNl]
  | cons c rest =>
    unfold splitNl
    split
    · simp
    · split <;> simp

theorem sum_splitNl (s : List Char) :
    ((splitNl s).map List.length).sum =
      (s.filter (fun c => c ≠ '\n')).length := by
  induction s with
  | nil => simp [splitNl]
  | cons c rest ih =>
    unfold splitNl
    by_cases hc : c = '\n'
    · rw [if_pos hc]
      simp only [List.map_cons, List.sum_cons, List.length_nil]
      rw [List.filter_cons]
      simp [hc, ih]
    · rw [if_neg hc]
      cases hsp : splitNl rest with
      | nil => exact absurd hsp (splitNl_ne_nil rest)
      | cons l ls =>
        rw [hsp] at ih
        simp only [List.map_cons, List.sum_cons, List.length_cons] at ih ⊢
        rw [List.filter_cons]
        have hcd : (decide (c ≠ '\n')) = true := by simp [hc]
        rw [hcd]
        simp only [if_true, List.length_cons]
        omega

theorem sum_dropLast_of_last_nil :
    ∀ (parts : List (List Char)), parts.getLast? = some [] →
      ((parts.dropLast.map List.length).sum) = ((parts.map List.length).sum) := by
  intro parts
  induction parts with
  | nil => intro h; simp at h
  | cons x t ih =>
    intro h
    cases t with
    | nil =>
      simp only [List.getLast?_singleton, Option.some_inj] at h
      simp [h]
    | cons y t2 =>
      rw [List.getLast?_cons_cons] at h
      have h2 := ih h
      simp only [List.map_cons, List.sum_cons] at h2
      simp only [List.dropLast_cons₂, List.map_cons, List.sum_cons]
      omega

theorem sum_rustLines (s : List Char) :
    ((rustLines s).map List.length).sum =
      (s.filter (fun c => c ≠ '\n')).length := by
  have hrl : rustLines s = if (splitNl s).getLast? = some [] then
      (splitNl s).dropLast else splitNl s := rfl
  rw [hrl]
  split
  · next h => rw [sum_dropLast_of_last_nil _ h]; exact sum_splitNl s
  · exact sum_splitNl s

theorem sum_lengths_const (L : Nat) :
    ∀ (ls : List (List Char)), (∀ l ∈ ls, l.length = L) →
      ((ls.map List.length).sum) = ls.length * L := by
  intro ls
  induction ls with
  | nil => intro _; simp
  | cons x t ih =>
    intro h
    simp only [List.map_cons, List.sum_cons, List.length_cons]
    rw [h x (by simp), ih (fun l hl => h l (by simp [hl]))]
    ring

/-! ### Claim C4 -/

/-- Counterexample to C4: `parse_grid` applied to the ragged text `"AB\nC"`
produces a grid whose buffer holds 3 cells while its recorded size is 2×2 —
the invariant `data.len() == size.x * size.y` is violated by an exposed
operation. -/
theorem c4_invariant_counterexample :
    Map2d.parse_grid ['A', 'B', '\n', 'C'] (fun c => c) =
      some ⟨⟨2, 2⟩, ['A', 'B', 'C']⟩ ∧
    ¬ (⟨⟨2, 2⟩, ['A', 'B', 'C']⟩ : Map2d Char).SizeInv := by
  decide

/-- C4 amended: `new_default` establishes the invariant whenever the cell
count is an `i64`-representable product, every write through `get_mut`
preserves it, and `parse_grid` establishes it whenever every line of the
input has the same length as the first; ragged input can produce a grid
that violates it. -/
theorem c4_amended_invariant (T : Type) :
    (∀ (size : Vec2) (d : T) (m : Map2d T), -(2 ^ 63) ≤ size.x * size.y →
      size.x * size.y < 2 ^ 63 →
      Map2d.new_default size d = some m → m.SizeInv) ∧
    (∀ (m m' : Map2d T) (p : Vec2) (v : T),
      m.SizeInv → m.set p v = some m' → m'.SizeInv) ∧
    (∀ (s : List Char) (f : Char → T) (g : Map2d T),
      (∀ l ∈ rustLines s, l.length = ((rustLines s).headD []).length) →
      Map2d.parse_grid s f = some g → g.SizeInv) := by
  refine ⟨?_, ?_, ?_⟩
  · intro size d m hge hlt hnd
    unfold Map2d.new_default at hnd
    by_cases hnn : 0 ≤ size.x * size.y
    · have hm : (size.x * size.y).emod (2 ^ 64) = size.x * size.y :=
        Int.emod_eq_of_lt hnn (by omega)
      rw [hm, if_pos (by omega)] at hnd
      obtain rfl := Option.some_injective _ hnd.symm
      unfold Map2d.SizeInv
      simp only [List.length_replicate]
      omega
    · have hm : (size.x * size.y).emod (2 ^ 64) = size.x * size.y + 2 ^ 64 := by
        have h4 : (size.x * size.y + 2 ^ 64) % (2 ^ 64) =
            (size.x * size.y) % (2 ^ 64) := Int.add_emod_self
        have h5 : (size.x * size.y + 2 ^ 64) % (2 ^ 64) =
            size.x * size.y + 2 ^ 64 := Int.emod_eq_of_lt (by omega) (by omega)
        have h6 : (size.x * size.y).emod (2 ^ 64) =
            (size.x * size.y) % (2 ^ 64) := rfl
        omega
      rw [hm, if_neg (by omega)] at hnd
      exact Option.noConfusion hnd
  · intro m m' p v hinv hset
    unfold Map2d.set at hset
    cases hio : m.index_of p with
    | none => rw [hio] at hset; exact Option.noConfusion hset
    | some i =>
      rw [hio] at hset
      dsimp only at hset
      by_cases hlt : i < m.data.length
      · rw [if_pos hlt] at hset
        obtain rfl := Option.some_injective _ hset.symm
        unfold Map2d.SizeInv at hinv ⊢
        simpa using hinv
      · rw [if_neg hlt] at hset
        exact Option.noConfusion hset
  · intro s f g hrect hparse
    unfold Map2d.parse_grid at hparse
    cases hls : rustLines s with
    | nil => rw [hls] at hparse; exact Option.noConfusion hparse
    | cons l0 rest =>
      rw [hls] at hparse
      obtain rfl := Option.some_injective _ hparse.symm
      unfold Map2d.SizeInv
      dsimp only
      have hsum := sum_rustLines s
      rw [hls] at hsum
      have hconst := sum_lengths_const l0.length (l0 :: rest) ?_
      · rw [hconst] at hsum
        rw [List.length_map]
        rw [← hsum]
        push_cast
        ring
      · intro l hl
        have := hrect l (by rw [hls]; exact hl)
        rw [hls] at this
        simpa using this

/-- Witness for the amended C4: a 2×3 default grid, a write into a 2×2 grid,
and the rectangular parse `"AB\nCD"`, all satisfying the invariant. -/
theorem c4_amended_invariant_witness :
    (⟨⟨2, 3⟩, List.replicate 6 (7 : Nat)⟩ : Map2d Nat).SizeInv ∧
    (⟨⟨2, 2⟩, [1, 2, 9, 4]⟩ : Map2d Nat).SizeInv ∧
    (⟨⟨2, 2⟩, ['A', 'B', 'C', 'D']⟩ : Map2d Char).SizeInv :=
  ⟨(c4_amended_invariant Nat).1 ⟨2, 3⟩ 7 ⟨⟨2, 3⟩, List.replicate 6 7⟩
      (by decide) (by decide) (by decide),
    (c4_amended_invariant Nat).2.1 ⟨⟨2, 2⟩, [1, 2, 3, 4]⟩ ⟨⟨2, 2⟩, [1, 2, 9, 4]⟩
      ⟨0, 1⟩ 9 (by decide) (by decide),
    (c4_amended_invariant Char).2.2 ['A', 'B', '\n', 'C', 'D'] (fun c => c)
      ⟨⟨2, 2⟩, ['A', 'B', 'C', 'D']⟩ (by decide) (by decide)⟩

/-! ### Claim C5 -/

/-- C5: `parse_grid` sets the width to the length of the first line, the
height to the line count (Rust's `lines()`, which drops only the trailing
empty segment after a final newline), and the data to every non-newline
character mapped through `f` in reading order; in particular parsing
`"AB\nCD"` with the identity mapping yields a 2×2 grid with
`get (0,0) = 'A'`, `get (1,0) = 'B'`, `get (0,1) = 'C'`, `get (1,1) = 'D'`. -/
theorem c5_parse_fidelity (T : Type) :
    (∀ (s : List Char) (f : Char → T) (l0 : List Char) (ls : List (List Char)),
      rustLines s = l0 :: ls →
      Map2d.parse_grid s f =
        some ⟨⟨(l0.length : Int), ((l0 :: ls).length : Int)⟩,
              (s.filter (fun c => c ≠ '\n')).map f⟩) ∧
    (∃ g : Map2d Char,
      Map2d.parse_grid ['A', 'B', '\n', 'C', 'D'] (fun c => c) = some g ∧
      g.size = ⟨2, 2⟩ ∧ g.get ⟨0, 0⟩ = some 'A' ∧ g.get ⟨1, 0⟩ = some 'B' ∧
      g.get ⟨0, 1⟩ = some 'C' ∧ g.get ⟨1, 1⟩ = some 'D') := by
  constructor
  · intro s f l0 ls h
    unfold Map2d.parse_grid
    rw [h]
  · exact ⟨⟨⟨2, 2⟩, ['A', 'B', 'C', 'D']⟩, by decide⟩

/-- Witness for C5: the single-column text `"A\nB"` parses to a 1×2 grid
holding exactly its two non-newline characters. -/
theorem c5_parse_fidelity_witness :
    Map2d.parse_grid ['A', '\n', 'B'] (fun c => c) =
      some ⟨⟨1, 2⟩, ['A', 'B']⟩ := by
  have h := (c5_parse_fidelity Char).1 ['A', '\n', 'B'] (fun c => c)
    ['A'] [['B']] (by decide)
  exact h

/-! ### Claim C6 -/

/-- C6: for every choice of logical-up, the view's logical-to-physical
translation maps the logical coordinate box into the physical one with
`to_logical` as a two-sided inverse — a bijection between the two coordinate
spaces (no coordinate skipped or duplicated) under which every in-bounds
logical coordinate round-trips to itself exactly. -/
theorem c6_rotation_bijection (T : Type) (v : RotatedMap2d T) (p q : Vec2) :
    (Vec2.inBounds v.size p →
      Vec2.inBounds v.map.size (v.to_physical p) ∧
      v.to_logical (v.to_physical p) = p) ∧
    (Vec2.inBounds v.map.size q →
      Vec2.inBounds v.size (v.to_logical q) ∧
      v.to_physical (v.to_logical q) = q) := by
  obtain ⟨m, up⟩ := v
  obtain ⟨⟨wz, hz⟩, data⟩ := m
  obtain ⟨px, py⟩ := p
  obtain ⟨qx, qy⟩ := q
  cases up <;>
    simp only [RotatedMap2d.size, RotatedMap2d.to_physical,
      RotatedMap2d.to_logical, Vec2.inBounds, Vec2.mk.injEq, and_true,
      true_and] <;>
    omega

/-- Witness for C6: a 3×2 grid viewed with logical up `Left`, at the
logical coordinate `(0, 1)` and the physical coordinate `(2, 1)`. -/
theorem c6_rotation_bijection_witness :
    (Vec2.inBounds (⟨⟨⟨3, 2⟩, []⟩, Dir.Left⟩ : RotatedMap2d Nat).map.size
        ((⟨⟨⟨3, 2⟩, []⟩, Dir.Left⟩ : RotatedMap2d Nat).to_physical ⟨0, 1⟩) ∧
      (⟨⟨⟨3, 2⟩, []⟩, Dir.Left⟩ : RotatedMap2d Nat).to_logical
        ((⟨⟨⟨3, 2⟩, []⟩, Dir.Left⟩ : RotatedMap2d Nat).to_physical ⟨0, 1⟩) =
        ⟨0, 1⟩) ∧
    (Vec2.inBounds (⟨⟨⟨3, 2⟩, []⟩, Dir.Left⟩ : RotatedMap2d Nat).size
        ((⟨⟨⟨3, 2⟩, []⟩, Dir.Left⟩ : RotatedMap2d Nat).to_logical ⟨2, 1⟩) ∧
      (⟨⟨⟨3, 2⟩, []⟩, Dir.Left⟩ : RotatedMap2d Nat).to_physical
        ((⟨⟨⟨3, 2⟩, []⟩, Dir.Left⟩ : RotatedMap2d Nat).to_logical ⟨2, 1⟩) =
        ⟨2, 1⟩) :=
  ⟨(c6_rotation_bijection Nat ⟨⟨⟨3, 2⟩, []⟩, Dir.Left⟩ ⟨0, 1⟩ ⟨2, 1⟩).1
      (by decide),
    (c6_rotation_bijection Nat ⟨⟨⟨3, 2⟩, []⟩, Dir.Left⟩ ⟨0, 1⟩ ⟨2, 1⟩).2
      (by decide)⟩

/-! ### Integer ranges -/

theorem intRangeFromTo_eq_nil {a b : Int} (h : b ≤ a) : intRangeFromTo a b = [] := by
  unfold intRangeFromTo
  have : (b - a).toNat = 0 := by omega
  rw [this]
  rfl

theorem intRangeFromTo_eq_cons {a b : Int} (h : a < b) :
    intRangeFromTo a b = a :: intRangeFromTo (a + 1) b := by
  unfold intRangeFromTo
  have h1 : (b - a).toNat = (b - (a + 1)).toNat + 1 := by omega
  rw [h1, List.range_succ_eq_map]
  simp only [List.map_cons, List.map_map]
  congr 1
  · simp
  · apply List.map_congr_left
    intro k hk
    simp only [Function.comp_apply]
    push_cast
    ring

theorem intRange_eq_fromTo (n : Int) : intRange n = intRangeFromTo 0 n := by
  unfold intRange intRangeFromTo
  have h0 : n - 0 = n := by omega
  rw [h0]
  apply List.map_congr_left
  intro k hk
  omega

theorem mem_intRangeFromTo {a b y : Int} :
    y ∈ intRangeFromTo a b ↔ a ≤ y ∧ y < b := by
  unfold intRangeFromTo
  simp only [List.mem_map, List.mem_range]
  constructor
  · rintro ⟨k, hk, rfl⟩
    omega
  · intro ⟨h1, h2⟩
    exact ⟨(y - a).toNat, by omega, by omega⟩

theorem intRangeFromTo_append {a b c : Int} (h1 : a ≤ b) (h2 : b ≤ c) :
    intRangeFromTo a c = intRangeFromTo a b ++ intRangeFromTo b c := by
  have hlen : (c - a).toNat = (b - a).toNat + (c - b).toNat := by omega
  unfold intRangeFromTo
  rw [hlen, List.range_add, List.map_append, List.map_map]
  congr 1
  apply List.map_congr_left
  intro k hk
  simp only [List.mem_range] at hk
  simp only [Function.comp_apply]
  omega

/-! ### Rotated-view helper lemmas -/

theorem RotatedMap2d.to_physical_inBounds {T : Type} (v : RotatedMap2d T)
    {p : Vec2} (hp : Vec2.inBounds v.size p) :
    Vec2.inBounds v.map.size (v.to_physical p) := by
  obtain ⟨m, up⟩ := v
  obtain ⟨⟨wz, hz⟩, data⟩ := m
  obtain ⟨px, py⟩ := p
  cases up <;>
    simp only [RotatedMap2d.size, RotatedMap2d.to_physical, Vec2.inBounds]
      at hp ⊢ <;>
    omega

theorem RotatedMap2d.to_logical_inBounds {T : Type} (v : RotatedMap2d T)
    {q : Vec2} (hq : Vec2.inBounds v.map.size q) :
    Vec2.inBounds v.size (v.to_logical q) := by
  obtain ⟨m, up⟩ := v
  obtain ⟨⟨wz, hz⟩, data⟩ := m
  obtain ⟨qx, qy⟩ := q
  cases up <;>
    simp only [RotatedMap2d.size, RotatedMap2d.to_logical, Vec2.inBounds]
      at hq ⊢ <;>
    omega

theorem RotatedMap2d.to_logical_to_physical {T : Type} (v : RotatedMap2d T)
    (p : Vec2) : v.to_logical (v.to_physical p) = p := by
  obtain ⟨m, up⟩ := v
  obtain ⟨px, py⟩ := p
  cases up <;>
    simp only [RotatedMap2d.to_physical, RotatedMap2d.to_logical,
      Vec2.mk.injEq] <;>
    omega

theorem RotatedMap2d.to_physical_to_logical {T : Type} (v : RotatedMap2d T)
    (q : Vec2) : v.to_physical (v.to_logical q) = q := by
  obtain ⟨m, up⟩ := v
  obtain ⟨qx, qy⟩ := q
  cases up <;>
    simp only [RotatedMap2d.to_physical, RotatedMap2d.to_logical,
      Vec2.mk.injEq] <;>
    omega

theorem RotatedMap2d.to_physical_inj {T : Type} (v : RotatedMap2d T)
    {p q : Vec2} (h : v.to_physical p = v.to_physical q) : p = q := by
  have h1 := v.to_logical_to_physical p
  have h2 := v.to_logical_to_physical q
  rw [← h1, ← h2, h]

theorem RotatedMap2d.to_physical_congr {T : Type} {v1 v2 : RotatedMap2d T}
    (h1 : v1.map.size = v2.map.size) (h2 : v1.up = v2.up) (q : Vec2) :
    v1.to_physical q = v2.to_physical q := by
  obtain ⟨m1, u1⟩ := v1
  obtain ⟨m2, u2⟩ := v2
  simp only at h1 h2
  subst h2
  cases u1 <;> simp only [RotatedMap2d.to_physical, h1]

theorem RotatedMap2d.to_logical_congr {T : Type} {v1 v2 : RotatedMap2d T}
    (h1 : v1.map.size = v2.map.size) (h2 : v1.up = v2.up) (q : Vec2) :
    v1.to_logical q = v2.to_logical q := by
  obtain ⟨m1, u1⟩ := v1
  obtain ⟨m2, u2⟩ := v2
  simp only at h1 h2
  subst h2
  cases u1 <;> simp only [RotatedMap2d.to_logical, h1]

theorem RotatedMap2d.size_congr {T : Type} {v1 v2 : RotatedMap2d T}
    (h1 : v1.map.size = v2.map.size) (h2 : v1.up = v2.up) :
    v1.size = v2.size := by
  obtain ⟨m1, u1⟩ := v1
  obtain ⟨m2, u2⟩ := v2
  simp only at h1 h2
  subst h2
  cases u1 <;> simp only [RotatedMap2d.size, h1]

theorem RotatedMap2d.view_get_of_inBounds {T : Type} (v : RotatedMap2d T)
    {p : Vec2} (hinv : v.map.SizeInv) (hp : Vec2.inBounds v.size p) :
    ∃ c, v.get p = some c := by
  unfold RotatedMap2d.get
  exact v.map.get_of_inBounds hinv (v.to_physical_inBounds hp)

theorem RotatedMap2d.view_set_spec {T : Type} (v : RotatedMap2d T) {p : Vec2}
    (c : T) (hinv : v.map.SizeInv) (hp : Vec2.inBounds v.size p) :
    ∃ v', v.set p c = some v' ∧ v'.up = v.up ∧ v'.map.size = v.map.size ∧
      v'.map.SizeInv ∧ v'.get p = some c ∧
      ∀ q, q ≠ p → v'.get q = v.get q := by
  obtain ⟨m', hset, hsz, hinv', hget, hother⟩ :=
    v.map.set_spec c hinv (v.to_physical_inBounds hp)
  refine ⟨⟨m', v.up⟩, ?_, rfl, hsz, hinv', ?_, ?_⟩
  · unfold RotatedMap2d.set
    rw [hset]
  · unfold RotatedMap2d.get
    have hphys : RotatedMap2d.to_physical ⟨m', v.up⟩ p = v.to_physical p :=
      @RotatedMap2d.to_physical_congr T ⟨m', v.up⟩ v hsz rfl p
    rw [hphys]
    exact hget
  · intro q hq
    unfold RotatedMap2d.get
    have hphys : RotatedMap2d.to_physical ⟨m', v.up⟩ q = v.to_physical q :=
      @RotatedMap2d.to_physical_congr T ⟨m', v.up⟩ v hsz rfl q
    rw [hphys]
    exact hother _ (fun he => hq (v.to_physical_inj he))

/-! ### `viewCol` access -/

theorem intRange_get? {n : Int} {k : Nat} (hk : k < n.toNat) :
    (intRange n).get? k = some (k : Int) := by
  unfold intRange
  rw [List.get?_map, List.get?_range hk]
  rfl

theorem intRange_length (n : Int) : (intRange n).length = n.toNat := by
  unfold intRange
  rw [List.length_map, List.length_range]

theorem viewCol_length (v : RotatedMap2d Cell) (x : Int) :
    (viewCol v x).length = v.size.y.toNat := by
  unfold viewCol
  rw [List.length_map, intRange_length]

theorem viewCol_get? (v : RotatedMap2d Cell) (x : Int) {k : Nat}
    (hk : k < v.size.y.toNat) :
    (viewCol v x).get? k = some ((v.get ⟨x, (k : Int)⟩).getD Cell.Empty) := by
  unfold viewCol
  rw [List.get?_map, intRange_get? hk]
  rfl

theorem set_col (v : RotatedMap2d Cell) {x y : Int} (c : Cell)
    (hinv : v.map.SizeInv) (hy : Vec2.inBounds v.size ⟨x, y⟩) :
    ∃ v', v.set ⟨x, y⟩ c = some v' ∧ v'.up = v.up ∧
      v'.map.size = v.map.size ∧ v'.map.SizeInv ∧
      viewCol v' x = (viewCol v x).set y.toNat c ∧
      ∀ q : Vec2, q.x ≠ x → v'.get q = v.get q := by
  obtain ⟨v', hset, hup, hsz, hinv', hget, hother⟩ := v.view_set_spec c hinv hy
  have hsize : v'.size = v.size := RotatedMap2d.size_congr hsz hup
  have hyflds : 0 ≤ x ∧ x < v.size.x ∧ 0 ≤ y ∧ y < v.size.y := hy
  obtain ⟨hy0, hy1, hy2, hy3⟩ := hyflds
  refine ⟨v', hset, hup, hsz, hinv', ?_, ?_⟩
  · apply List.ext_get?
    intro k
    by_cases hk : k < v.size.y.toNat
    · rw [viewCol_get? v' x (by rw [hsize]; exact hk)]
      by_cases hky : k = y.toNat
      · subst hky
        have hyy : ((y.toNat : Nat) : Int) = y := by omega
        rw [hyy, hget]
        rw [List.get?_set_eq_of_lt c (by rw [viewCol_length]; omega)]
        rfl
      · have hne : (⟨x, (k : Int)⟩ : Vec2) ≠ ⟨x, y⟩ := by
          intro he
          have := congrArg Vec2.y he
          simp only at this
          omega
        rw [hother _ hne]
        rw [List.get?_set_ne c _ (fun he => hky he.symm)]
        rw [viewCol_get? v x hk]
    · have h1 : (viewCol v' x).get? k = none := by
        rw [List.get?_eq_none]
        rw [viewCol_length, hsize]
        omega
      have h2 : ((viewCol v x).set y.toNat c).get? k = none := by
        rw [List.get?_eq_none, List.length_set, viewCol_length]
        omega
      rw [h1, h2]
  · intro q hq
    exact hother q (by intro he; rw [he] at hq; exact hq rfl)

/-! ### Simulation of the 2D slide by the 1D column algorithm -/

theorem sim_setfold (v0 : RotatedMap2d Cell) (x : Int)
    (hx : 0 ≤ x ∧ x < v0.size.x) :
    ∀ (ys : List Int) (m : RotatedMap2d Cell) (out : List Cell),
      SimR v0 x m out → (∀ y2 ∈ ys, 0 ≤ y2 ∧ y2 < v0.size.y) →
      ∃ m', ys.foldlM (fun acc y2 => acc.set ⟨x, y2⟩ Cell.Mobile) m = some m' ∧
        SimR v0 x m'
          (ys.foldl (fun acc y2 => acc.set y2.toNat Cell.Mobile) out) := by
  intro ys
  induction ys with
  | nil => intro m out hR _; exact ⟨m, rfl, hR⟩
  | cons y2 t ih =>
    intro m out hR hmem
    obtain ⟨hup, hsz, hinv, hout, hother⟩ := hR
    have hsize : m.size = v0.size := RotatedMap2d.size_congr hsz hup
    have hyb : Vec2.inBounds m.size ⟨x, y2⟩ := by
      rw [hsize]
      exact ⟨hx.1, hx.2, (hmem y2 (by simp)).1, (hmem y2 (by simp)).2⟩
    obtain ⟨m1, hset, hup1, hsz1, hinv1, hcol1, hother1⟩ :=
      set_col m Cell.Mobile hinv hyb
    have hR1 : SimR v0 x m1 (out.set y2.toNat Cell.Mobile) := by
      refine ⟨hup1.trans hup, hsz1.trans hsz, hinv1, ?_, ?_⟩
      · rw [hout]
        exact hcol1.symm
      · intro q hq
        exact (hother1 q hq).trans (hother q hq)
    obtain ⟨m', hfold, hR'⟩ := ih m1 (out.set y2.toNat Cell.Mobile) hR1
      (fun z hz => hmem z (by simp [hz]))
    refine ⟨m', ?_, hR'⟩
    rw [List.foldlM_cons, hset]
    exact hfold

theorem sim_writeRun_aux (v0 : RotatedMap2d Cell) (x : Int)
    (hx : 0 ≤ x ∧ x < v0.size.x) (m : RotatedMap2d Cell) (out : List Cell)
    (stop cnt : Int) (hR : SimR v0 x m out) (hstop : 0 ≤ stop)
    (hle : stop + cnt ≤ v0.size.y) :
    ∃ m', writeRun m x stop cnt = some m' ∧
      SimR v0 x m' (listWriteRun out stop cnt) := by
  unfold writeRun listWriteRun
  exact sim_setfold v0 x hx _ m out hR
    (fun y2 hy2 => by
      rw [mem_intRangeFromTo] at hy2
      omega)

theorem sim_step (v0 : RotatedMap2d Cell) (x : Int)
    (hx : 0 ≤ x ∧ x < v0.size.x) (m : RotatedMap2d Cell) (out : List Cell)
    (stop cnt y : Int) (hR : SimR v0 x m out) (hy : 0 ≤ y ∧ y < v0.size.y)
    (hstop : 0 ≤ stop) (hcnt : 0 ≤ cnt) (hsc : stop + cnt ≤ y) :
    ∃ m' out' stop' cnt',
      slideStep x (m, stop, cnt) y = some (m', stop', cnt') ∧
      listSlideStep (out, stop, cnt) y = some (out', stop', cnt') ∧
      SimR v0 x m' out' ∧ 0 ≤ stop' ∧ 0 ≤ cnt' ∧ stop' + cnt' ≤ y + 1 := by
  obtain ⟨hup, hsz, hinv, hout, hother⟩ := hR
  have hR0 : SimR v0 x m out := ⟨hup, hsz, hinv, hout, hother⟩
  have hsize : m.size = v0.size := RotatedMap2d.size_congr hsz hup
  have hyb : Vec2.inBounds m.size ⟨x, y⟩ := by
    rw [hsize]
    exact ⟨hx.1, hx.2, hy.1, hy.2⟩
  obtain ⟨c, hc⟩ := m.view_get_of_inBounds hinv hyb
  have hout? : out.get? y.toNat = some c := by
    rw [hout, viewCol_get? m x (by rw [hsize]; omega)]
    have hyy : ((y.toNat : Nat) : Int) = y := by omega
    rw [hyy, hc]
    rfl
  cases c with
  | Empty =>
    refine ⟨m, out, stop, cnt, ?_, ?_, hR0, hstop, hcnt, by omega⟩
    · simp only [slideStep]
      rw [hc]
      rfl
    · simp only [listSlideStep]
      rw [hout?]
      rfl
  | Mobile =>
    obtain ⟨m1, hset, hup1, hsz1, hinv1, hcol1, hother1⟩ :=
      set_col m Cell.Empty hinv hyb
    refine ⟨m1, out.set y.toNat Cell.Empty, stop, cnt + 1, ?_, ?_, ?_,
      hstop, by omega, by omega⟩
    · simp only [slideStep]
      rw [hc]
      show (m.set ⟨x, y⟩ Cell.Empty).bind _ = _
      rw [hset]
      rfl
    · simp only [listSlideStep]
      rw [hout?]
      rfl
    · refine ⟨hup1.trans hup, hsz1.trans hsz, hinv1, ?_, ?_⟩
      · rw [hout]
        exact hcol1.symm
      · intro q hq
        exact (hother1 q hq).trans (hother q hq)
  | Fixed =>
    obtain ⟨m1, hwr, hR1⟩ := sim_writeRun_aux v0 x hx m out stop cnt hR0
      hstop (by omega)
    refine ⟨m1, listWriteRun out stop cnt, y + 1, 0, ?_, ?_, hR1,
      by omega, by omega, by omega⟩
    · simp only [slideStep]
      rw [hc]
      show (writeRun m x stop cnt).bind _ = _
      rw [hwr]
      rfl
    · simp only [listSlideStep]
      rw [hout?]
      rfl

theorem sim_mainfold (v0 : RotatedMap2d Cell) (x : Int)
    (hx : 0 ≤ x ∧ x < v0.size.x) :
    ∀ (k : Nat) (a : Int) (m : RotatedMap2d Cell) (out : List Cell)
      (stop cnt : Int),
      a + (k : Int) = v0.size.y → 0 ≤ a → SimR v0 x m out → 0 ≤ stop →
      0 ≤ cnt → stop + cnt ≤ a →
      ∃ m' out' stop' cnt',
        (intRangeFromTo a v0.size.y).foldlM (slideStep x) (m, stop, cnt) =
          some (m', stop', cnt') ∧
        (intRangeFromTo a v0.size.y).foldlM listSlideStep (out, stop, cnt) =
          some (out', stop', cnt') ∧
        SimR v0 x m' out' ∧ 0 ≤ stop' ∧ 0 ≤ cnt' ∧
        stop' + cnt' ≤ v0.size.y := by
  intro k
  induction k with
  | zero =>
    intro a m out stop cnt hk ha hR hstop hcnt hsc
    rw [intRangeFromTo_eq_nil (by omega)]
    exact ⟨m, out, stop, cnt, rfl, rfl, hR, hstop, hcnt, by omega⟩
  | succ k2 ih =>
    intro a m out stop cnt hk ha hR hstop hcnt hsc
    have hlt : a < v0.size.y := by
      have : ((k2 + 1 : Nat) : Int) = (k2 : Int) + 1 := by push_cast; ring
      omega
    rw [intRangeFromTo_eq_cons hlt]
    obtain ⟨m1, out1, stop1, cnt1, hstep2, hstep1, hR1, hs1, hc1, hsc1⟩ :=
      sim_step v0 x hx m out stop cnt a hR ⟨ha, hlt⟩ hstop hcnt hsc
    obtain ⟨m', out', stop', cnt', hf2, hf1, hR', hrest⟩ :=
      ih (a + 1) m1 out1 stop1 cnt1
        (by have : ((k2 + 1 : Nat) : Int) = (k2 : Int) + 1 := by push_cast; ring
            omega)
        (by omega) hR1 hs1 hc1 hsc1
    refine ⟨m', out', stop', cnt', ?_, ?_, hR', hrest⟩
    · rw [List.foldlM_cons, hstep2]
      exact hf2
    · rw [List.foldlM_cons, hstep1]
      exact hf1

theorem slide_up_single_sim (v0 : RotatedMap2d Cell) (x : Int)
    (hinv : v0.map.SizeInv) (hx : 0 ≤ x ∧ x < v0.size.x)
    (hH : 0 ≤ v0.size.y) :
    ∃ v', slide_up_single v0 x = some v' ∧ v'.up = v0.up ∧
      v'.map.size = v0.map.size ∧ v'.map.SizeInv ∧
      (∀ q : Vec2, q.x ≠ x → v'.get q = v0.get q) ∧
      listSlide (viewCol v0 x) = some (viewCol v' x) := by
  have hR0 : SimR v0 x v0 (viewCol v0 x) :=
    ⟨rfl, rfl, hinv, rfl, fun _ _ => rfl⟩
  obtain ⟨m', out', stop', cnt', hf2, hf1, hR', hs', hc', hsc'⟩ :=
    sim_mainfold v0 x hx v0.size.y.toNat 0 v0 (viewCol v0 x) 0 0
      (by omega) le_rfl hR0 le_rfl le_rfl le_rfl
  obtain ⟨m2, hwr, hR2⟩ := sim_writeRun_aux v0 x hx m' out' stop' cnt'
    hR' hs' hsc'
  obtain ⟨hup2, hsz2, hinv2, hout2, hother2⟩ := hR2
  refine ⟨m2, ?_, hup2, hsz2, hinv2, hother2, ?_⟩
  · unfold slide_up_single
    rw [intRange_eq_fromTo, hf2]
    show writeRun m' x stop' cnt' = some m2
    exact hwr
  · unfold listSlide
    have hlen : (((viewCol v0 x).length : Nat) : Int) = v0.size.y := by
      rw [viewCol_length]
      omega
    rw [hlen, intRange_eq_fromTo, hf1]
    show some (listWriteRun out' stop' cnt') = some (viewCol m2 x)
    rw [hout2]

/-! ### 1D correctness of the column algorithm -/

theorem list_set_append_len {α : Type} (l1 : List α) (a : α) (l2 : List α)
    (v : α) : (l1 ++ a :: l2).set l1.length v = l1 ++ v :: l2 := by
  induction l1 with
  | nil => rfl
  | cons b t ih => simp only [List.cons_append, List.length_cons, List.set_cons_succ, ih]

theorem dropWhile_cons_false {α : Type} (p : α → Bool) :
    ∀ (l : List α) (a : α) (t : List α), l.dropWhile p = a :: t → p a = false := by
  intro l
  induction l with
  | nil => intro a t h; exact absurd h (by simp)
  | cons b l2 ih =>
    intro a t h
    rw [List.dropWhile_cons] at h
    by_cases hb : p b
    · rw [if_pos hb] at h
      exact ih a t h
    · rw [if_neg hb] at h
      injection h with h1 h2
      subst h1
      simp only [Bool.not_eq_true] at hb
      exact hb

theorem scan_free_seg :
    ∀ (t pref rest : List Cell) (stop cnt : Int),
      (∀ c ∈ t, c ≠ Cell.Fixed) →
      (intRangeFromTo (pref.length : Int)
          ((pref.length : Int) + (t.length : Int))).foldlM listSlideStep
        (pref ++ (t ++ rest), stop, cnt) =
      some (pref ++ (List.replicate t.length Cell.Empty ++ rest), stop,
        cnt + (t.count Cell.Mobile : Int)) := by
  intro t
  induction t with
  | nil =>
    intro pref rest stop cnt _
    rw [intRangeFromTo_eq_nil (by simp)]
    simp
  | cons c t2 ih =>
    intro pref rest stop cnt hfree
    have hlen : ((c :: t2).length : Int) = (t2.length : Int) + 1 := by
      push_cast [List.length_cons]
      ring
    rw [hlen, intRangeFromTo_eq_cons (by
      have : (0 : Int) ≤ (t2.length : Int) := Int.natCast_nonneg _
      omega)]
    rw [List.foldlM_cons]
    have hget : (pref ++ (c :: t2 ++ rest)).get?
        ((pref.length : Int)).toNat = some c := by
      have ht : ((pref.length : Int)).toNat = pref.length := rfl
      rw [ht, List.get?_append_right (le_refl _)]
      simp
    have hstep : listSlideStep (pref ++ (c :: t2 ++ rest), stop, cnt)
        (pref.length : Int) =
        match c with
        | Cell.Empty => some (pref ++ (c :: t2 ++ rest), stop, cnt)
        | Cell.Mobile => some ((pref ++ (c :: t2 ++ rest)).set
            ((pref.length : Int)).toNat Cell.Empty, stop, cnt + 1)
        | Cell.Fixed => some (listWriteRun (pref ++ (c :: t2 ++ rest))
            stop cnt, (pref.length : Int) + 1, 0) := by
      simp only [listSlideStep]
      rw [hget]
      cases c <;> rfl
    have hfc : c ≠ Cell.Fixed := hfree c (by simp)
    cases c with
    | Fixed => exact absurd rfl hfc
    | Empty =>
      rw [hstep]
      show ((intRangeFromTo ((pref.length : Int) + 1)
          ((pref.length : Int) + ((t2.length : Int) + 1))).foldlM listSlideStep
        (pref ++ (Cell.Empty :: t2 ++ rest), stop, cnt)) = _
      have hpl : ((pref.length : Int) + 1) = (((pref ++ [Cell.Empty]).length : Int)) := by
        push_cast [List.length_append, List.length_cons, List.length_nil]
        omega
      have hpl2 : (pref.length : Int) + ((t2.length : Int) + 1) =
          (((pref ++ [Cell.Empty]).length : Int)) + (t2.length : Int) := by
        push_cast [List.length_append, List.length_cons, List.length_nil]
        omega
      have hlist : pref ++ (Cell.Empty :: t2 ++ rest) =
          (pref ++ [Cell.Empty]) ++ (t2 ++ rest) := by
        simp
      rw [hpl, hpl2, hlist, ih (pref ++ [Cell.Empty]) rest stop cnt
        (fun z hz => hfree z (by simp [hz]))]
      simp [List.replicate_succ]
    | Mobile =>
      rw [hstep]
      have hset : (pref ++ (Cell.Mobile :: t2 ++ rest)).set
          ((pref.length : Int)).toNat Cell.Empty =
          (pref ++ [Cell.Empty]) ++ (t2 ++ rest) := by
        have ht : ((pref.length : Int)).toNat = pref.length := rfl
        rw [ht]
        rw [show pref ++ (Cell.Mobile :: t2 ++ rest) =
          pref ++ Cell.Mobile :: (t2 ++ rest) by simp]
        rw [list_set_append_len]
        simp
      rw [hset]
      show ((intRangeFromTo ((pref.length : Int) + 1)
          ((pref.length : Int) + ((t2.length : Int) + 1))).foldlM listSlideStep
        ((pref ++ [Cell.Empty]) ++ (t2 ++ rest), stop, cnt + 1)) = _
      have hpl : ((pref.length : Int) + 1) = (((pref ++ [Cell.Empty]).length : Int)) := by
        push_cast [List.length_append, List.length_cons, List.length_nil]
        omega
      have hpl2 : (pref.length : Int) + ((t2.length : Int) + 1) =
          (((pref ++ [Cell.Empty]).length : Int)) + (t2.length : Int) := by
        push_cast [List.length_append, List.length_cons, List.length_nil]
        omega
      rw [hpl, hpl2, ih (pref ++ [Cell.Empty]) rest stop (cnt + 1)
        (fun z hz => hfree z (by simp [hz]))]
      simp [List.replicate_succ, List.count_cons]
      ring

theorem listWriteRun_fill :
    ∀ (cntN : Nat) (pref rest : List Cell) (e : Nat), cntN ≤ e →
      listWriteRun (pref ++ (List.replicate e Cell.Empty ++ rest))
        (pref.length : Int) (cntN : Int) =
      pref ++ (List.replicate cntN Cell.Mobile ++
        (List.replicate (e - cntN) Cell.Empty ++ rest)) := by
  intro cntN
  induction cntN with
  | zero =>
    intro pref rest e _
    unfold listWriteRun
    rw [intRangeFromTo_eq_nil (by simp)]
    simp
  | succ n ih =>
    intro pref rest e he
    obtain ⟨e2, rfl⟩ : ∃ e2, e = e2 + 1 := ⟨e - 1, by omega⟩
    unfold listWriteRun
    rw [intRangeFromTo_eq_cons (by
      have : (0 : Int) ≤ (n : Int) := Int.natCast_nonneg _
      push_cast
      omega)]
    rw [List.foldl_cons]
    have hset : (pref ++ (List.replicate (e2 + 1) Cell.Empty ++ rest)).set
        ((pref.length : Int)).toNat Cell.Mobile =
        (pref ++ [Cell.Mobile]) ++ (List.replicate e2 Cell.Empty ++ rest) := by
      have ht : ((pref.length : Int)).toNat = pref.length := rfl
      rw [ht, List.replicate_succ]
      rw [show pref ++ (Cell.Empty :: List.replicate e2 Cell.Empty ++ rest) =
        pref ++ Cell.Empty :: (List.replicate e2 Cell.Empty ++ rest) by simp]
      rw [list_set_append_len]
      simp
    rw [hset]
    have hr1 : (pref.length : Int) + 1 = ((pref ++ [Cell.Mobile]).length : Int) := by
      push_cast [List.length_append, List.length_cons, List.length_nil]
      omega
    have hr2 : (pref.length : Int) + ((n + 1 : Nat) : Int) =
        ((pref ++ [Cell.Mobile]).length : Int) + (n : Int) := by
      push_cast [List.length_append, List.length_cons, List.length_nil]
      omega
    rw [hr1, hr2]
    have hihx := ih (pref ++ [Cell.Mobile]) rest e2 (by omega)
    unfold listWriteRun at hihx
    rw [hihx]
    have hrep : List.replicate (n + 1) Cell.Mobile =
        Cell.Mobile :: List.replicate n Cell.Mobile := List.replicate_succ _ _
    rw [hrep]
    have he : e2 + 1 - (n + 1) = e2 - n := by omega
    rw [he]
    simp

theorem slideLineSpec_free {l : List Cell}
    (h : l.dropWhile (fun c => c ≠ Cell.Fixed) = []) :
    slideLineSpec l = compactSeg l := by
  unfold slideLineSpec
  split
  · rfl
  · next c rest heq => rw [h] at heq; exact absurd heq (by simp)

theorem slideLineSpec_cons {l : List Cell} {c : Cell} {rest : List Cell}
    (h : l.dropWhile (fun z => z ≠ Cell.Fixed) = c :: rest) :
    slideLineSpec l = compactSeg (l.takeWhile (fun z => z ≠ Cell.Fixed)) ++
      Cell.Fixed :: slideLineSpec rest := by
  rw [slideLineSpec]
  split
  · next heq => rw [h] at heq; exact absurd heq (by simp)
  · next c2 rest2 heq =>
    rw [h] at heq
    injection heq with h1 h2
    subst h2
    rfl

theorem compactSeg_length (s : List Cell) : (compactSeg s).length = s.length := by
  unfold compactSeg
  rw [List.length_append, List.length_replicate, List.length_replicate]
  have := List.count_le_length Cell.Mobile s
  omega

theorem slideLineSpec_length :
    ∀ (n : Nat) (l : List Cell), l.length = n →
      (slideLineSpec l).length = l.length := by
  intro n
  induction n using Nat.strong_induction_on with
  | _ n ih =>
    intro l hlen
    cases hdw : l.dropWhile (fun z => z ≠ Cell.Fixed) with
    | nil => rw [slideLineSpec_free hdw, compactSeg_length]
    | cons c rest =>
      have hc : c = Cell.Fixed := by
        have := dropWhile_cons_false _ l c rest hdw
        simpa using this
      subst hc
      rw [slideLineSpec_cons hdw]
      have hsplit : (l.takeWhile (fun z => z ≠ Cell.Fixed)).length +
          (rest.length + 1) = l.length := by
        have h1 := congrArg List.length
          (List.takeWhile_append_dropWhile
            (p := fun z => decide (z ≠ Cell.Fixed)) (l := l))
        rw [List.length_append, hdw] at h1
        simpa using h1
      have hrl : rest.length < n := by omega
      rw [List.length_append, List.length_cons, compactSeg_length,
        ih rest.length hrl rest rfl]
      omega

theorem listSlide_gen :
    ∀ (n : Nat) (t pref : List Cell), t.length = n →
      ∃ st : List Cell × Int × Int,
        (intRangeFromTo (pref.length : Int)
            ((pref.length : Int) + (t.length : Int))).foldlM listSlideStep
          (pref ++ t, (pref.length : Int), 0) = some st ∧
        listWriteRun st.1 st.2.1 st.2.2 = pref ++ slideLineSpec t := by
  intro n
  induction n using Nat.strong_induction_on with
  | _ n ih =>
    intro t pref hlen
    cases hdw : t.dropWhile (fun z => z ≠ Cell.Fixed) with
    | nil =>
      have hfree : ∀ c ∈ t, c ≠ Cell.Fixed := by
        intro c hc
        have := List.dropWhile_eq_nil_iff.mp hdw c hc
        simpa using this
      have hscan := scan_free_seg t pref [] (pref.length : Int) 0 hfree
      rw [List.append_nil] at hscan
      refine ⟨(pref ++ (List.replicate t.length Cell.Empty ++ []),
        (pref.length : Int), 0 + (t.count Cell.Mobile : Int)), hscan, ?_⟩
      show listWriteRun (pref ++ (List.replicate t.length Cell.Empty ++ []))
        (pref.length : Int) (0 + (t.count Cell.Mobile : Int)) = _
      rw [zero_add]
      rw [listWriteRun_fill (t.count Cell.Mobile) pref [] t.length
        (List.count_le_length _ _)]
      rw [slideLineSpec_free hdw]
      unfold compactSeg
      simp
    | cons c rest2 =>
      have hc : c = Cell.Fixed := by
        have := dropWhile_cons_false _ t c rest2 hdw
        simpa using this
      subst hc
      have hts : t.takeWhile (fun z => z ≠ Cell.Fixed) ++
          (Cell.Fixed :: rest2) = t := by
        conv_rhs => rw [← List.takeWhile_append_dropWhile
          (p := fun z => decide (z ≠ Cell.Fixed)) (l := t)]
        rw [hdw]
      have hfree : ∀ c ∈ t.takeWhile (fun z => z ≠ Cell.Fixed),
          c ≠ Cell.Fixed := by
        intro c hc
        have := List.mem_takeWhile_imp hc
        simpa using this
      have hklen : (t.takeWhile (fun z => z ≠ Cell.Fixed)).length +
          (rest2.length + 1) = t.length := by
        have h1 := congrArg List.length hts
        rw [List.length_append, List.length_cons] at h1
        omega
      have hcle := List.count_le_length Cell.Mobile
        (t.takeWhile (fun z => z ≠ Cell.Fixed))
      -- the state after the write-back at the fixed cell, as prefix + rest
      have hpref2len : ((pref ++ (List.replicate
          ((t.takeWhile (fun z => z ≠ Cell.Fixed)).count Cell.Mobile)
          Cell.Mobile ++
          (List.replicate
            ((t.takeWhile (fun z => z ≠ Cell.Fixed)).length -
              (t.takeWhile (fun z => z ≠ Cell.Fixed)).count Cell.Mobile)
            Cell.Empty ++ [Cell.Fixed]))).length : Int) =
          (pref.length : Int) +
            ((t.takeWhile (fun z => z ≠ Cell.Fixed)).length : Int) + 1 := by
        simp only [List.length_append, List.length_replicate,
          List.length_cons, List.length_nil]
        push_cast
        omega
      obtain ⟨st, hst, hwr2⟩ := ih rest2.length (by omega) rest2
        (pref ++ (List.replicate
          ((t.takeWhile (fun z => z ≠ Cell.Fixed)).count Cell.Mobile)
          Cell.Mobile ++
          (List.replicate
            ((t.takeWhile (fun z => z ≠ Cell.Fixed)).length -
              (t.takeWhile (fun z => z ≠ Cell.Fixed)).count Cell.Mobile)
            Cell.Empty ++ [Cell.Fixed]))) rfl
      refine ⟨st, ?_, ?_⟩
      · -- assemble the three phases of the fold
        have hb1 : (0 : Int) ≤
            ((t.takeWhile (fun z => z ≠ Cell.Fixed)).length : Int) :=
          Int.natCast_nonneg _
        have hb2 : ((t.takeWhile (fun z => z ≠ Cell.Fixed)).length : Int) + 1 ≤
            (t.length : Int) := by
          push_cast
          omega
        rw [show pref ++ t = pref ++ (t.takeWhile (fun z => z ≠ Cell.Fixed) ++
            (Cell.Fixed :: rest2)) from by rw [hts]]
        rw [show intRangeFromTo (pref.length : Int)
              ((pref.length : Int) + (t.length : Int)) =
            (intRangeFromTo (pref.length : Int)
              ((pref.length : Int) +
                ((t.takeWhile (fun z => z ≠ Cell.Fixed)).length : Int))) ++
            (intRangeFromTo
              ((pref.length : Int) +
                ((t.takeWhile (fun z => z ≠ Cell.Fixed)).length : Int))
              ((pref.length : Int) + (t.length : Int)))
          from intRangeFromTo_append (by omega) (by omega)]
        rw [List.foldlM_append]
        rw [scan_free_seg (t.takeWhile (fun z => z ≠ Cell.Fixed)) pref
          (Cell.Fixed :: rest2) (pref.length : Int) 0 hfree]
        show (intRangeFromTo
            ((pref.length : Int) +
              ((t.takeWhile (fun z => z ≠ Cell.Fixed)).length : Int))
            ((pref.length : Int) + (t.length : Int))).foldlM listSlideStep
          (pref ++ (List.replicate
              (t.takeWhile (fun z => z ≠ Cell.Fixed)).length Cell.Empty ++
              (Cell.Fixed :: rest2)), (pref.length : Int),
            0 + ((t.takeWhile (fun z => z ≠ Cell.Fixed)).count
              Cell.Mobile : Int)) = some st
        rw [intRangeFromTo_eq_cons (by omega)]
        rw [List.foldlM_cons]
        have hgetF : (pref ++ (List.replicate
            (t.takeWhile (fun z => z ≠ Cell.Fixed)).length Cell.Empty ++
            (Cell.Fixed :: rest2))).get?
            (((pref.length : Int) +
              ((t.takeWhile (fun z => z ≠ Cell.Fixed)).length : Int)).toNat) =
            some Cell.Fixed := by
          have htn : (((pref.length : Int) +
              ((t.takeWhile (fun z => z ≠ Cell.Fixed)).length : Int)).toNat) =
              (pref ++ List.replicate
                (t.takeWhile (fun z => z ≠ Cell.Fixed)).length
                Cell.Empty).length := by
            rw [List.length_append, List.length_replicate]
            omega
          rw [htn]
          rw [show pref ++ (List.replicate
              (t.takeWhile (fun z => z ≠ Cell.Fixed)).length Cell.Empty ++
              (Cell.Fixed :: rest2)) =
            (pref ++ List.replicate
              (t.takeWhile (fun z => z ≠ Cell.Fixed)).length Cell.Empty) ++
            (Cell.Fixed :: rest2) by simp]
          rw [List.get?_append_right (le_refl _)]
          simp
        have hstepF : listSlideStep
            (pref ++ (List.replicate
              (t.takeWhile (fun z => z ≠ Cell.Fixed)).length Cell.Empty ++
              (Cell.Fixed :: rest2)), (pref.length : Int),
              0 + ((t.takeWhile (fun z => z ≠ Cell.Fixed)).count
                Cell.Mobile : Int))
            ((pref.length : Int) +
              ((t.takeWhile (fun z => z ≠ Cell.Fixed)).length : Int)) =
            some (pref ++ (List.replicate
                ((t.takeWhile (fun z => z ≠ Cell.Fixed)).count Cell.Mobile)
                Cell.Mobile ++
                (List.replicate
                  ((t.takeWhile (fun z => z ≠ Cell.Fixed)).length -
                    (t.takeWhile (fun z => z ≠ Cell.Fixed)).count Cell.Mobile)
                  Cell.Empty ++ (Cell.Fixed :: rest2))),
              (pref.length : Int) +
                ((t.takeWhile (fun z => z ≠ Cell.Fixed)).length : Int) + 1,
              0) := by
          simp only [listSlideStep]
          rw [hgetF]
          show some (listWriteRun _ _ _, _, _) = _
          rw [zero_add, listWriteRun_fill _ pref (Cell.Fixed :: rest2) _ hcle]
        rw [hstepF]
        show (intRangeFromTo
            ((pref.length : Int) +
              ((t.takeWhile (fun z => z ≠ Cell.Fixed)).length : Int) + 1)
            ((pref.length : Int) + (t.length : Int))).foldlM listSlideStep
          (pref ++ (List.replicate
              ((t.takeWhile (fun z => z ≠ Cell.Fixed)).count Cell.Mobile)
              Cell.Mobile ++
              (List.replicate
                ((t.takeWhile (fun z => z ≠ Cell.Fixed)).length -
                  (t.takeWhile (fun z => z ≠ Cell.Fixed)).count Cell.Mobile)
                Cell.Empty ++ (Cell.Fixed :: rest2))),
            (pref.length : Int) +
              ((t.takeWhile (fun z => z ≠ Cell.Fixed)).length : Int) + 1,
            0) = some st
        have hlistassoc : pref ++ (List.replicate
            ((t.takeWhile (fun z => z ≠ Cell.Fixed)).count Cell.Mobile)
            Cell.Mobile ++
            (List.replicate
              ((t.takeWhile (fun z => z ≠ Cell.Fixed)).length -
                (t.takeWhile (fun z => z ≠ Cell.Fixed)).count Cell.Mobile)
              Cell.Empty ++ (Cell.Fixed :: rest2))) =
            (pref ++ (List.replicate
              ((t.takeWhile (fun z => z ≠ Cell.Fixed)).count Cell.Mobile)
              Cell.Mobile ++
              (List.replicate
                ((t.takeWhile (fun z => z ≠ Cell.Fixed)).length -
                  (t.takeWhile (fun z => z ≠ Cell.Fixed)).count Cell.Mobile)
                Cell.Empty ++ [Cell.Fixed]))) ++ rest2 := by
          simp
        rw [hlistassoc, ← hpref2len]
        have hend : (pref.length : Int) + (t.length : Int) =
            ((pref ++ (List.replicate
              ((t.takeWhile (fun z => z ≠ Cell.Fixed)).count Cell.Mobile)
              Cell.Mobile ++
              (List.replicate
                ((t.takeWhile (fun z => z ≠ Cell.Fixed)).length -
                  (t.takeWhile (fun z => z ≠ Cell.Fixed)).count Cell.Mobile)
                Cell.Empty ++ [Cell.Fixed]))).length : Int) +
            (rest2.length : Int) := by
          rw [hpref2len]
          push_cast
          omega
        rw [hend]
        exact hst
      · rw [hwr2]
        rw [slideLineSpec_cons hdw]
        unfold compactSeg
        simp

theorem listSlide_spec (c : List Cell) : listSlide c = some (slideLineSpec c) := by
  obtain ⟨st, hst, hwr⟩ := listSlide_gen c.length c [] rfl
  simp only [List.nil_append, List.length_nil, Nat.cast_zero, zero_add]
    at hst hwr
  unfold listSlide
  rw [intRange_eq_fromTo, hst]
  show some (listWriteRun st.1 st.2.1 st.2.2) = _
  rw [hwr]

theorem viewCol_congr {v1 v2 : RotatedMap2d Cell} (x : Int)
    (hsz : v1.size = v2.size)
    (hget : ∀ y : Int, v1.get ⟨x, y⟩ = v2.get ⟨x, y⟩) :
    viewCol v1 x = viewCol v2 x := by
  unfold viewCol
  rw [hsz]
  apply List.map_congr_left
  intro y _
  rw [hget]

theorem slide_up_sim (v0 : RotatedMap2d Cell) (hinv : v0.map.SizeInv)
    (hW : 0 ≤ v0.size.x) (hH : 0 ≤ v0.size.y) :
    ∃ v', slide_up v0 = some v' ∧ v'.up = v0.up ∧
      v'.map.size = v0.map.size ∧ v'.map.SizeInv ∧
      ∀ lx : Int, 0 ≤ lx → lx < v0.size.x →
        viewCol v' lx = slideLineSpec (viewCol v0 lx) := by
  suffices h : ∀ (k : Nat) (j : Int) (v : RotatedMap2d Cell),
      j + (k : Int) = v0.size.x → 0 ≤ j →
      v.up = v0.up → v.map.size = v0.map.size → v.map.SizeInv →
      (∀ lx : Int, 0 ≤ lx → lx < j →
        viewCol v lx = slideLineSpec (viewCol v0 lx)) →
      (∀ q : Vec2, ¬ (0 ≤ q.x ∧ q.x < j) → v.get q = v0.get q) →
      ∃ v', (intRangeFromTo j v0.size.x).foldlM slide_up_single v = some v' ∧
        v'.up = v0.up ∧ v'.map.size = v0.map.size ∧ v'.map.SizeInv ∧
        ∀ lx : Int, 0 ≤ lx → lx < v0.size.x →
          viewCol v' lx = slideLineSpec (viewCol v0 lx) by
    obtain ⟨v', hf, hprops⟩ := h v0.size.x.toNat 0 v0 (by omega) le_rfl rfl
      rfl hinv (fun lx h1 h2 => absurd h2 (by omega))
      (fun q hq => rfl)
    refine ⟨v', ?_, hprops⟩
    unfold slide_up
    rw [intRange_eq_fromTo]
    exact hf
  intro k
  induction k with
  | zero =>
    intro j v hk hj hup hsz hvinv hdone huntouched
    rw [intRangeFromTo_eq_nil (by omega)]
    exact ⟨v, rfl, hup, hsz, hvinv, fun lx h1 h2 => hdone lx h1 (by omega)⟩
  | succ k2 ih =>
    intro j v hk hj hup hsz hvinv hdone huntouched
    have hk' : ((k2 + 1 : Nat) : Int) = (k2 : Int) + 1 := by push_cast; ring
    have hjlt : j < v0.size.x := by omega
    rw [intRangeFromTo_eq_cons hjlt, List.foldlM_cons]
    have hvsize : v.size = v0.size := RotatedMap2d.size_congr hsz hup
    obtain ⟨v1, hstep, hup1, hsz1, hinv1, hother1, hlist1⟩ :=
      slide_up_single_sim v j hvinv
        (by rw [hvsize]; exact ⟨hj, hjlt⟩) (by rw [hvsize]; exact hH)
    have hcolj : viewCol v j = viewCol v0 j :=
      viewCol_congr j hvsize (fun y => huntouched ⟨j, y⟩ (by
        intro hx
        simp only at hx
        omega))
    have hdone1 : ∀ lx : Int, 0 ≤ lx → lx < j + 1 →
        viewCol v1 lx = slideLineSpec (viewCol v0 lx) := by
      intro lx h1 h2
      by_cases hlx : lx = j
      · subst hlx
        have hls := listSlide_spec (viewCol v lx)
        rw [hlist1] at hls
        have h3 := Option.some_injective _ hls
        rw [h3, hcolj]
      · have hlt : lx < j := by omega
        have hcol : viewCol v1 lx = viewCol v lx := by
          apply viewCol_congr lx (RotatedMap2d.size_congr hsz1 hup1)
          intro y
          exact hother1 ⟨lx, y⟩ (by
            intro he
            simp only at he
            omega)
        rw [hcol]
        exact hdone lx h1 hlt
    have huntouched1 : ∀ q : Vec2, ¬ (0 ≤ q.x ∧ q.x < j + 1) →
        v1.get q = v0.get q := by
      intro q hq
      have hqx : q.x ≠ j := by omega
      rw [hother1 q hqx]
      exact huntouched q (by omega)
    obtain ⟨v', hf, hup', hsz', hinv', hcols'⟩ := ih (j + 1) v1
      (by omega) (by omega) (hup1.trans hup) (hsz1.trans hsz) hinv1
      hdone1 huntouched1
    refine ⟨v', ?_, hup', hsz', hinv', hcols'⟩
    rw [hstep]
    exact hf

/-! ### Grid extensionality and `ofFn` access -/

theorem Map2d.grid_ext {T : Type} (m1 m2 : Map2d T) (h0 : 0 ≤ m1.size.x)
    (hsz : m1.size = m2.size) (hi1 : m1.SizeInv) (hi2 : m2.SizeInv)
    (hget : ∀ p, Vec2.inBounds m1.size p → m1.get p = m2.get p) :
    m1 = m2 := by
  obtain ⟨sz1, data1⟩ := m1
  obtain ⟨sz2, data2⟩ := m2
  simp only at hsz h0
  subst hsz
  simp only [Map2d.mk.injEq, true_and]
  unfold Map2d.SizeInv at hi1 hi2
  simp only at hi1 hi2 h0
  have hlen : data1.length = data2.length := by omega
  apply List.ext_get?
  intro i
  by_cases hi : i < data1.length
  · have hw : 0 < sz1.x := by
      by_contra hc
      push_neg at hc
      have hx0 : sz1.x = 0 := le_antisymm hc h0
      have hz : sz1.x * sz1.y = 0 := by rw [hx0]; ring
      omega
    have hh : 0 < sz1.y := by
      by_contra hc
      push_neg at hc
      have : sz1.x * sz1.y ≤ 0 := mul_nonpos_of_nonneg_of_nonpos h0 hc
      omega
    set p : Vec2 := ⟨(i : Int) % sz1.x, (i : Int) / sz1.x⟩ with hp
    have hpb : Vec2.inBounds sz1 p := by
      refine ⟨Int.emod_nonneg _ (by omega), Int.emod_lt_of_pos _ hw, ?_, ?_⟩
      · exact Int.ediv_nonneg (by omega) (by omega)
      · rw [Int.ediv_lt_iff_lt_mul hw]
        have hm : sz1.y * sz1.x = sz1.x * sz1.y := mul_comm _ _
        omega
    have hrecon : p.x + p.y * sz1.x = (i : Int) := by
      rw [hp]
      simp only []
      rw [mul_comm]
      exact Int.emod_add_ediv _ _
    have h1 := hget p hpb
    unfold Map2d.get at h1
    rw [Map2d.index_of_of_inBounds _ hpb,
      Map2d.index_of_of_inBounds _ hpb] at h1
    dsimp only at h1
    rw [hrecon] at h1
    simpa using h1
  · rw [List.get?_eq_none.2 (by omega), List.get?_eq_none.2 (by omega)]

theorem Map2d.ofFn_size {T : Type} (size : Vec2) (f : Vec2 → T) :
    (Map2d.ofFn size f).size = size := rfl

theorem Map2d.ofFn_sizeInv {T : Type} (size : Vec2) (f : Vec2 → T)
    (h : 0 ≤ size.x * size.y) : (Map2d.ofFn size f).SizeInv := by
  unfold Map2d.ofFn Map2d.SizeInv
  simp only [List.length_map, List.length_range]
  omega

theorem Map2d.ofFn_get {T : Type} (size : Vec2) (f : Vec2 → T) {p : Vec2}
    (hp : Vec2.inBounds size p) : (Map2d.ofFn size f).get p = some (f p) := by
  obtain ⟨h1, h2, h3, h4⟩ := hp
  have hw : 0 < size.x := by omega
  have hnn : 0 ≤ p.x + p.y * size.x := by
    have := mul_nonneg h3 (le_of_lt hw)
    omega
  have hlt : p.x + p.y * size.x < size.x * size.y := linIndex_lt h1 h2 h3 h4
  unfold Map2d.get
  rw [Map2d.index_of_of_inBounds _ ⟨h1, h2, h3, h4⟩]
  show ((List.range (size.x * size.y).toNat).map
    (fun (i : Nat) => f ⟨(i : Int).emod size.x, (i : Int).ediv size.x⟩)).get?
      (p.x + p.y * size.x).toNat = some (f p)
  rw [List.get?_map, List.get?_range (by omega)]
  simp only [Option.map_some']
  have hcast : (((p.x + p.y * size.x).toNat : Nat) : Int) =
      p.x + p.y * size.x := by omega
  have hme : (p.x + p.y * size.x).emod size.x = p.x := linIndex_emod hw h1 h2
  have hde : (p.x + p.y * size.x).ediv size.x = p.y := linIndex_ediv hw h1 h2
  rw [hcast, hme, hde]

/-! ### Logical columns of each rotation in terms of grid columns/rows -/

theorem specCol_length (g : Map2d Cell) (x : Int) :
    (specCol g x).length = g.size.y.toNat := by
  unfold specCol
  rw [List.length_map, intRange_length]

theorem specRow_length (g : Map2d Cell) (y : Int) :
    (specRow g y).length = g.size.x.toNat := by
  unfold specRow
  rw [List.length_map, intRange_length]

theorem specCol_get? (g : Map2d Cell) (x : Int) {k : Nat}
    (hk : k < g.size.y.toNat) :
    (specCol g x).get? k = some ((g.get ⟨x, (k : Int)⟩).getD Cell.Empty) := by
  unfold specCol
  rw [List.get?_map, intRange_get? hk]
  rfl

theorem specRow_get? (g : Map2d Cell) (y : Int) {k : Nat}
    (hk : k < g.size.x.toNat) :
    (specRow g y).get? k = some ((g.get ⟨(k : Int), y⟩).getD Cell.Empty) := by
  unfold specRow
  rw [List.get?_map, intRange_get? hk]
  rfl

theorem viewCol_up (g : Map2d Cell) (lx : Int) :
    viewCol ⟨g, Dir.Up⟩ lx = specCol g lx := rfl

theorem viewCol_right_up (g : Map2d Cell) (lx : Int) :
    viewCol ⟨g, Dir.Right⟩ lx = specRow g lx := rfl

theorem viewCol_down_up (g : Map2d Cell) (lx : Int) :
    viewCol ⟨g, Dir.Down⟩ lx = (specCol g (g.size.x - 1 - lx)).reverse := by
  apply List.ext_get?
  intro k
  by_cases hk : k < g.size.y.toNat
  · rw [viewCol_get? _ _ (by
      show k < (RotatedMap2d.size ⟨g, Dir.Down⟩).y.toNat
      exact hk)]
    rw [List.get?_reverse (by rw [specCol_length]; exact hk)]
    rw [specCol_length]
    rw [specCol_get? g _ (by omega)]
    show some ((g.get ⟨g.size.x - 1 - lx, g.size.y - 1 - (k : Int)⟩).getD
      Cell.Empty) = _
    have hc : ((g.size.y.toNat - 1 - k : Nat) : Int) =
        g.size.y - 1 - (k : Int) := by omega
    rw [hc]
  · have h1 : (viewCol ⟨g, Dir.Down⟩ lx).get? k = none := by
      rw [List.get?_eq_none.2]
      rw [viewCol_length]
      show (RotatedMap2d.size ⟨g, Dir.Down⟩).y.toNat ≤ k
      have hb : (RotatedMap2d.size ⟨g, Dir.Down⟩).y = g.size.y := rfl
      omega
    have h2 : ((specCol g (g.size.x - 1 - lx)).reverse).get? k = none := by
      rw [List.get?_eq_none.2]
      rw [List.length_reverse, specCol_length]
      omega
    rw [h1, h2]

theorem viewCol_left_up (g : Map2d Cell) (lx : Int) :
    viewCol ⟨g, Dir.Left⟩ lx = (specRow g (g.size.y - 1 - lx)).reverse := by
  apply List.ext_get?
  intro k
  by_cases hk : k < g.size.x.toNat
  · rw [viewCol_get? _ _ (by
      show k < (RotatedMap2d.size ⟨g, Dir.Left⟩).y.toNat
      exact hk)]
    rw [List.get?_reverse (by rw [specRow_length]; exact hk)]
    rw [specRow_length]
    rw [specRow_get? g _ (by omega)]
    show some ((g.get ⟨g.size.x - 1 - (k : Int), g.size.y - 1 - lx⟩).getD
      Cell.Empty) = _
    have hc : ((g.size.x.toNat - 1 - k : Nat) : Int) =
        g.size.x - 1 - (k : Int) := by omega
    rw [hc]
  · have h1 : (viewCol ⟨g, Dir.Left⟩ lx).get? k = none := by
      rw [List.get?_eq_none.2]
      rw [viewCol_length]
      show (RotatedMap2d.size ⟨g, Dir.Left⟩).y.toNat ≤ k
      have hb : (RotatedMap2d.size ⟨g, Dir.Left⟩).y = g.size.x := rfl
      omega
    have h2 : ((specRow g (g.size.y - 1 - lx)).reverse).get? k = none := by
      rw [List.get?_eq_none.2]
      rw [List.length_reverse, specRow_length]
      omega
    rw [h1, h2]

theorem slide_eq_core (g : Map2d Cell) (up : Dir) (hinv : g.SizeInv)
    (hW : 0 ≤ (RotatedMap2d.size ⟨g, up⟩).x)
    (hH : 0 ≤ (RotatedMap2d.size ⟨g, up⟩).y) :
    ∃ v', slide_up ⟨g, up⟩ = some v' ∧ v'.map.size = g.size ∧
      v'.map.SizeInv ∧
      ∀ p : Vec2, Vec2.inBounds g.size p → ∃ cv,
        v'.map.get p = some cv ∧
        (slideLineSpec (viewCol ⟨g, up⟩
            (RotatedMap2d.to_logical ⟨g, up⟩ p).x)).get?
          ((RotatedMap2d.to_logical ⟨g, up⟩ p).y).toNat = some cv := by
  obtain ⟨v', hsu, hup', hsz', hinv', hcols⟩ :=
    slide_up_sim ⟨g, up⟩ hinv hW hH
  refine ⟨v', hsu, hsz', hinv', ?_⟩
  intro p hp
  have hq : Vec2.inBounds (RotatedMap2d.size ⟨g, up⟩)
      (RotatedMap2d.to_logical ⟨g, up⟩ p) :=
    RotatedMap2d.to_logical_inBounds ⟨g, up⟩ hp
  have hvsz : v'.size = RotatedMap2d.size ⟨g, up⟩ :=
    RotatedMap2d.size_congr hsz' hup'
  have hgq : v'.get (RotatedMap2d.to_logical ⟨g, up⟩ p) = v'.map.get p := by
    unfold RotatedMap2d.get
    have h1 : v'.to_physical (RotatedMap2d.to_logical ⟨g, up⟩ p) =
        RotatedMap2d.to_physical ⟨g, up⟩
          (RotatedMap2d.to_logical ⟨g, up⟩ p) :=
      @RotatedMap2d.to_physical_congr Cell v' ⟨g, up⟩ hsz' hup' _
    rw [h1, RotatedMap2d.to_physical_to_logical]
  have hq' : Vec2.inBounds v'.size (RotatedMap2d.to_logical ⟨g, up⟩ p) := by
    rw [hvsz]
    exact hq
  obtain ⟨cv, hcv⟩ := RotatedMap2d.view_get_of_inBounds v' hinv' hq'
  refine ⟨cv, by rw [← hgq]; exact hcv, ?_⟩
  have hqflds : 0 ≤ (RotatedMap2d.to_logical ⟨g, up⟩ p).x ∧
      (RotatedMap2d.to_logical ⟨g, up⟩ p).x <
        (RotatedMap2d.size ⟨g, up⟩).x ∧
      0 ≤ (RotatedMap2d.to_logical ⟨g, up⟩ p).y ∧
      (RotatedMap2d.to_logical ⟨g, up⟩ p).y <
        (RotatedMap2d.size ⟨g, up⟩).y := hq
  have hcol := hcols (RotatedMap2d.to_logical ⟨g, up⟩ p).x
    hqflds.1 hqflds.2.1
  have hvsy : v'.size.y = (RotatedMap2d.size ⟨g, up⟩).y := by rw [hvsz]
  have hvc := viewCol_get? v' (RotatedMap2d.to_logical ⟨g, up⟩ p).x
    (k := ((RotatedMap2d.to_logical ⟨g, up⟩ p).y).toNat)
    (by omega)
  have hcast : ((((RotatedMap2d.to_logical ⟨g, up⟩ p).y).toNat : Nat) : Int) =
      (RotatedMap2d.to_logical ⟨g, up⟩ p).y := by omega
  rw [hcast] at hvc
  have heta : (⟨(RotatedMap2d.to_logical ⟨g, up⟩ p).x,
      (RotatedMap2d.to_logical ⟨g, up⟩ p).y⟩ : Vec2) =
      RotatedMap2d.to_logical ⟨g, up⟩ p := rfl
  rw [heta, hcv, hcol] at hvc
  simp only [Option.getD_some] at hvc
  exact hvc

/-! ### Claim C7 -/

/-- C7: for every direction and every well-formed grid, running the single
direction-agnostic `slide_up` routine of `src/day_14.rs` over the rotated
view chosen by `slide` for that direction produces exactly the grid computed
by the independently written direction-specific reference transformation
(`slideUpSpec` / `slideDownSpec` / `slideLeftSpec` / `slideRightSpec`,
written from the spec's description of gravity); the witness instantiates
the Down case on a 3×3 grid with one fixed obstacle and two movable cells. -/
theorem c7_slide_rotation_equivalence (g : Map2d Cell) (hinv : g.SizeInv)
    (hw : 0 ≤ g.size.x) (hh : 0 ≤ g.size.y) (dir : Dir) :
    slide g dir = some (slideSpec g dir) := by
  cases dir with
  | Up =>
    obtain ⟨v', hsu, hsz', hinv', hmain⟩ := slide_eq_core g Dir.Up hinv hw hh
    show (match slide_up ⟨g, Dir.Up⟩ with
      | none => none
      | some r => some r.map) = some (slideSpec g Dir.Up)
    rw [hsu]
    show some v'.map = some (slideUpSpec g)
    refine congrArg some ?_
    refine Map2d.grid_ext _ _ (by rw [hsz']; exact hw) (by rw [hsz']; rfl)
      hinv' (Map2d.ofFn_sizeInv _ _ (mul_nonneg hw hh)) ?_
    intro p hp
    have hp' : Vec2.inBounds g.size p := by rw [← hsz']; exact hp
    obtain ⟨cv, hget, hval⟩ := hmain p hp'
    rw [hget]
    show some cv = (Map2d.ofFn g.size
      (fun p => ((slideLineSpec (specCol g p.x)).get? p.y.toNat).getD
        Cell.Empty)).get p
    rw [Map2d.ofFn_get _ _ hp']
    have hlg : RotatedMap2d.to_logical ⟨g, Dir.Up⟩ p = p := rfl
    rw [hlg, viewCol_up] at hval
    rw [hval]
    rfl
  | Down =>
    obtain ⟨v', hsu, hsz', hinv', hmain⟩ :=
      slide_eq_core g Dir.Down hinv hw hh
    show (match slide_up ⟨g, Dir.Down⟩ with
      | none => none
      | some r => some r.map) = some (slideSpec g Dir.Down)
    rw [hsu]
    show some v'.map = some (slideDownSpec g)
    refine congrArg some ?_
    refine Map2d.grid_ext _ _ (by rw [hsz']; exact hw) (by rw [hsz']; rfl)
      hinv' (Map2d.ofFn_sizeInv _ _ (mul_nonneg hw hh)) ?_
    intro p hp
    have hp' : Vec2.inBounds g.size p := by rw [← hsz']; exact hp
    obtain ⟨hp1, hp2, hp3, hp4⟩ := hp'
    obtain ⟨cv, hget, hval⟩ := hmain p ⟨hp1, hp2, hp3, hp4⟩
    rw [hget]
    show some cv = (Map2d.ofFn g.size
      (fun p =>
        (((slideLineSpec (specCol g p.x).reverse).reverse).get?
          p.y.toNat).getD Cell.Empty)).get p
    rw [Map2d.ofFn_get _ _ ⟨hp1, hp2, hp3, hp4⟩]
    have hlg : RotatedMap2d.to_logical ⟨g, Dir.Down⟩ p =
        ⟨g.size.x - 1 - p.x, g.size.y - 1 - p.y⟩ := rfl
    rw [hlg] at hval
    dsimp only at hval
    rw [viewCol_down_up] at hval
    rw [show g.size.x - 1 - (g.size.x - 1 - p.x) = p.x from by omega] at hval
    have hLlen : (slideLineSpec ((specCol g p.x).reverse)).length =
        g.size.y.toNat := by
      rw [slideLineSpec_length _ _ rfl, List.length_reverse, specCol_length]
    have hrev : ((slideLineSpec ((specCol g p.x).reverse)).reverse).get?
        p.y.toNat =
        (slideLineSpec ((specCol g p.x).reverse)).get?
          ((slideLineSpec ((specCol g p.x).reverse)).length - 1 -
            p.y.toNat) :=
      List.get?_reverse (by omega)
    have hidx : (slideLineSpec ((specCol g p.x).reverse)).length - 1 -
        p.y.toNat = (g.size.y - 1 - p.y).toNat := by
      rw [hLlen]
      omega
    rw [hrev, hidx, hval]
    rfl
  | Left =>
    obtain ⟨v', hsu, hsz', hinv', hmain⟩ :=
      slide_eq_core g Dir.Right hinv hh hw
    show (match slide_up ⟨g, Dir.Right⟩ with
      | none => none
      | some r => some r.map) = some (slideSpec g Dir.Left)
    rw [hsu]
    show some v'.map = some (slideLeftSpec g)
    refine congrArg some ?_
    refine Map2d.grid_ext _ _ (by rw [hsz']; exact hw) (by rw [hsz']; rfl)
      hinv' (Map2d.ofFn_sizeInv _ _ (mul_nonneg hw hh)) ?_
    intro p hp
    have hp' : Vec2.inBounds g.size p := by rw [← hsz']; exact hp
    obtain ⟨cv, hget, hval⟩ := hmain p hp'
    rw [hget]
    show some cv = (Map2d.ofFn g.size
      (fun p => ((slideLineSpec (specRow g p.y)).get? p.x.toNat).getD
        Cell.Empty)).get p
    rw [Map2d.ofFn_get _ _ hp']
    have hlg : RotatedMap2d.to_logical ⟨g, Dir.Right⟩ p = ⟨p.y, p.x⟩ := rfl
    rw [hlg] at hval
    dsimp only at hval
    rw [viewCol_right_up] at hval
    rw [hval]
    rfl
  | Right =>
    obtain ⟨v', hsu, hsz', hinv', hmain⟩ :=
      slide_eq_core g Dir.Left hinv hh hw
    show (match slide_up ⟨g, Dir.Left⟩ with
      | none => none
      | some r => some r.map) = some (slideSpec g Dir.Right)
    rw [hsu]
    show some v'.map = some (slideRightSpec g)
    refine congrArg some ?_
    refine Map2d.grid_ext _ _ (by rw [hsz']; exact hw) (by rw [hsz']; rfl)
      hinv' (Map2d.ofFn_sizeInv _ _ (mul_nonneg hw hh)) ?_
    intro p hp
    have hp' : Vec2.inBounds g.size p := by rw [← hsz']; exact hp
    obtain ⟨hp1, hp2, hp3, hp4⟩ := hp'
    obtain ⟨cv, hget, hval⟩ := hmain p ⟨hp1, hp2, hp3, hp4⟩
    rw [hget]
    show some cv = (Map2d.ofFn g.size
      (fun p =>
        (((slideLineSpec (specRow g p.y).reverse).reverse).get?
          p.x.toNat).getD Cell.Empty)).get p
    rw [Map2d.ofFn_get _ _ ⟨hp1, hp2, hp3, hp4⟩]
    have hlg : RotatedMap2d.to_logical ⟨g, Dir.Left⟩ p =
        ⟨g.size.y - 1 - p.y, g.size.x - 1 - p.x⟩ := rfl
    rw [hlg] at hval
    dsimp only at hval
    rw [viewCol_left_up] at hval
    rw [show g.size.y - 1 - (g.size.y - 1 - p.y) = p.y from by omega] at hval
    have hLlen : (slideLineSpec ((specRow g p.y).reverse)).length =
        g.size.x.toNat := by
      rw [slideLineSpec_length _ _ rfl, List.length_reverse, specRow_length]
    have hrev : ((slideLineSpec ((specRow g p.y).reverse)).reverse).get?
        p.x.toNat =
        (slideLineSpec ((specRow g p.y).reverse)).get?
          ((slideLineSpec ((specRow g p.y).reverse)).length - 1 -
            p.x.toNat) :=
      List.get?_reverse (by omega)
    have hidx : (slideLineSpec ((specRow g p.y).reverse)).length - 1 -
        p.x.toNat = (g.size.x - 1 - p.x).toNat := by
      rw [hLlen]
      omega
    rw [hrev, hidx, hval]
    rfl

/-- Witness for C7: the hand-constructed 3×3 grid `"O.#" / ".O." / "..."`
(one fixed obstacle, two movable cells) slid toward the bottom through the
rotated view, compared against the direction-specific reference. -/
theorem c7_slide_rotation_equivalence_witness :
    slide ⟨⟨3, 3⟩, [Cell.Mobile, Cell.Empty, Cell.Fixed,
      Cell.Empty, Cell.Mobile, Cell.Empty,
      Cell.Empty, Cell.Empty, Cell.Empty]⟩ Dir.Down =
    some (slideSpec ⟨⟨3, 3⟩, [Cell.Mobile, Cell.Empty, Cell.Fixed,
      Cell.Empty, Cell.Mobile, Cell.Empty,
      Cell.Empty, Cell.Empty, Cell.Empty]⟩ Dir.Down) :=
  c7_slide_rotation_equivalence
    ⟨⟨3, 3⟩, [Cell.Mobile, Cell.Empty, Cell.Fixed,
      Cell.Empty, Cell.Mobile, Cell.Empty,
      Cell.Empty, Cell.Empty, Cell.Empty]⟩
    (by decide) (by decide) (by decide) Dir.Down
